import Mathlib

/-
Verification of the entity-resolution and merge engine of the sfr-db-updater
repository (src/model/agent.py, src/model/instance.py) and of its stream-facing
updater contract (src/tests/test_itemUpdater.py, src/tests/test_workUpdater.py).

The Python source is shallowly embedded: the mutable SQLAlchemy session is
replaced by an explicit `State` record of persisted rows and relationship rows;
dict payloads become structures; the `None` value becomes `Option`; raised
exceptions become an explicit result type.  External collaborator classes that
are not part of the source tree (Link, DateField, Identifier, Measurement,
Rights, AltTitle, Language, Item, Work, the stream-facing updaters) are
modelled from the spec's collaborator contracts; each such definition carries a
doc comment starting with `Modelled from the spec:`.
-/

namespace SfrDbUpdater

/-! ## Character and string helpers (src/model/agent.py string handling) -/

/-- The single-quote character, written via its code point. -/
def quoteChar : Char := Char.ofNat 39

/-- Postgres quote escaping used throughout src/model/agent.py:
each single quote is replaced by two single quotes. -/
def escQuotes : List Char → List Char
  | [] => []
  | c :: cs =>
    if c = quoteChar then quoteChar :: quoteChar :: escQuotes cs
    else c :: escQuotes cs

/-- Quote escaping lifted to `String`. -/
def escStr (s : String) : String := String.mk (escQuotes s.data)

/-- Python `str.strip()`: drop whitespace from both ends. -/
def stripWs (cs : List Char) : List Char :=
  ((cs.dropWhile Char.isWhitespace).reverse.dropWhile Char.isWhitespace).reverse

/-- Python `str.strip()` on a `String`. -/
def pyStrip (s : String) : String := String.mk (stripWs s.data)

/-- The characters stripped from both ends of a cleaned agent name
(src/model/agent.py, Agent._cleanName, final strip call). -/
def junkChar (c : Char) : Bool :=
  c == '.' || c == ',' || c == ';' || c == ':' || c == '|' ||
  c == '[' || c == ']' || c == '"' || c == ' '

/-- Strip the name-junk characters from both ends. -/
def stripJunk (cs : List Char) : List Char :=
  ((cs.dropWhile junkChar).reverse.dropWhile junkChar).reverse

/-- A bracket character, for Python `strip` over the two bracket characters
(src/model/agent.py, Agent._cleanName, supplied-name convention). -/
def bracketChar (c : Char) : Bool := c == '[' || c == ']'

/-- Python `tmpName.strip` over the bracket characters. -/
def stripBrackets (cs : List Char) : List Char :=
  ((cs.dropWhile bracketChar).reverse.dropWhile bracketChar).reverse

/-- The anchored regular expression over a full name wrapped in square
brackets used by Agent._cleanName: start bracket, one or more characters other
than a newline, end bracket, anchored at both ends. -/
def fullBracket (cs : List Char) : Bool :=
  match cs with
  | c :: _ =>
    c == '[' && decide (3 ≤ cs.length) && (cs.getLast? == some ']') &&
      ((cs.drop 1).dropLast.all (fun x => x != '\n'))
  | [] => false

/-- One attempted match, at the head of the list, of the lifespan pattern of
Agent._cleanName: four digits, a hyphen, then optionally four more digits.
Returns the first year and the optional second year. -/
def lifeAt : List Char → Option (List Char × Option (List Char))
  | a :: b :: c :: d :: e :: rest =>
    if a.isDigit && b.isDigit && c.isDigit && d.isDigit && e == '-' then
      match rest with
      | f :: g :: h :: i :: _ =>
        if f.isDigit && g.isDigit && h.isDigit && i.isDigit then
          some ([a, b, c, d], some [f, g, h, i])
        else some ([a, b, c, d], none)
      | _ => some ([a, b, c, d], none)
    else none
  | _ => none

/-- Leftmost match of the lifespan pattern, as Python `re.search` finds it. -/
def searchLife : List Char → Option (List Char × Option (List Char))
  | [] => none
  | c :: cs =>
    match lifeAt (c :: cs) with
    | some r => some r
    | none => searchLife cs

/-- The character class of the bracketed role annotation of Agent._cleanName:
letters, semicolons and spaces. -/
def roleChar (c : Char) : Bool := c.isAlpha || c == ';' || c == ' '

/-- One attempted match, at the head of the list, of the bracketed role
annotation: an opening bracket, one or more role characters, a closing
bracket.  Since the closing bracket is not a role character, the greedy run of
role characters must be followed directly by the closing bracket. -/
def roleAt (cs : List Char) : Option (List Char) :=
  match cs with
  | c :: rest =>
    if c = '[' then
      let run := rest.takeWhile roleChar
      if 1 ≤ run.length ∧ (rest.drop run.length).head? = some ']' then some run
      else none
    else none
  | [] => none

/-- Leftmost match of the bracketed role annotation. -/
def searchRole : List Char → Option (List Char)
  | [] => none
  | c :: cs =>
    match roleAt (c :: cs) with
    | some r => some r
    | none => searchRole cs

/-- Python `str.replace(old, '')`: remove every non-overlapping occurrence of
`pat`, scanning left to right. -/
def replaceAll (pat : List Char) : List Char → List Char
  | [] => []
  | c :: cs =>
    if pat ≠ [] ∧ pat.isPrefixOf (c :: cs) then
      replaceAll pat ((c :: cs).drop pat.length)
    else c :: replaceAll pat cs
termination_by cs => cs.length
decreasing_by
  · simp only [List.length_drop, List.length_cons]
    have hpat : 0 < pat.length := List.length_pos.mpr (by tauto)
    omega
  · simp

/-! ## The date record payloads handed to the DateField collaborator -/

/-- A date payload record as assembled by Agent._cleanName and consumed by the
DateField collaborator. -/
structure DateRec where
  display_date : String
  date_range : String
  date_type : String
deriving DecidableEq, Repr, Inhabited

/-- Python `r.lower().strip()` applied to one role token split out of the
bracketed role annotation. -/
def cleanRole (r : List Char) : String := String.mk (stripWs (r.map Char.toLower))

/-- The role-annotation stage and final strip of Agent._cleanName: search for a
bracketed role annotation, remove it and accumulate its lowercased trimmed
tokens, then strip residual punctuation from both ends of the name. -/
def roleStage (t : List Char) (roles : List String) (dates : List DateRec) :
    List Char × List String × List DateRec :=
  match searchRole t with
  | some run =>
    let t' := replaceAll ('[' :: run ++ [']']) t
    (stripJunk t', roles ++ (run.splitOn ';').map cleanRole, dates)
  | none => (stripJunk t, roles, dates)

/-- Agent._cleanName (src/model/agent.py lines 223-268), on the character list
of the raw name together with the mutable roles and dates collections:
escape quotes, unwrap a fully bracketed name, extract and remove the lifespan
span emitting birth and death date records, extract and remove the bracketed
role annotation, strip residual punctuation.  Returns the cleaned name (which
the source also assigns to `sort_name`) with the updated roles and dates. -/
def cleanChars (nm0 : List Char) (roles : List String) (dates : List DateRec) :
    List Char × List String × List DateRec :=
  let t1 := escQuotes nm0
  let t2 := if fullBracket t1 then stripBrackets t1 else t1
  match searchLife t2 with
  | some (y1, oy2) =>
    let g0 := y1 ++ '-' :: (match oy2 with | some y2 => y2 | none => [])
    let t3 := replaceAll g0 t2
    let withBirth := dates ++ [⟨String.mk y1, String.mk y1, "birth_date"⟩]
    let dates1 := withBirth ++
      (match oy2 with
       | some y2 => [⟨String.mk y2, String.mk y2, "death_date"⟩]
       | none => [])
    roleStage t3 roles dates1
  | none => roleStage t2 roles dates

/-- Agent._cleanName on a `String` payload name. -/
def cleanName (nm : String) (roles : List String) (dates : List DateRec) :
    String × List String × List DateRec :=
  match cleanChars nm.data roles dates with
  | (cs, rs, ds) => (String.mk cs, rs, ds)

/-! ## Errors, rows, payloads and the persisted state -/

/-- The exceptions the merge engine can surface: `dataError` embeds
helpers.errorHelpers.DataError, `multipleResults` embeds the SQLAlchemy
MultipleResultsFound raised by a `one` query with several rows. -/
inductive MergeErr where
  | dataError
  | multipleResults
deriving DecidableEq, Repr, Inhabited

/-- An explicit result type standing for Python control flow with
exceptions. -/
inductive MRes (α : Type) where
  | ok (val : α)
  | err (e : MergeErr)
deriving DecidableEq, Repr, Inhabited

/-- A persisted agents-table row (src/model/agent.py, class Agent). -/
structure AgentRow where
  id : Nat
  name : String
  sort_name : Option String
  lcnaf : Option String
  viaf : Option String
  biography : Option String
deriving DecidableEq, Repr, Inhabited

/-- The scalar keys of the agent payload dict after Agent.updateOrInsert has
popped the child collections and Agent._cleanName has rewritten `name` and
`sort_name`. -/
structure AgentScalars where
  name : String
  sort_name : Option String
  lcnaf : Option String
  viaf : Option String
  biography : Option String
deriving DecidableEq, Repr, Inhabited

/-- The `link` entry of an agent payload: Agent.update and Agent.insert branch
on whether it is a dict, a list, or anything else (then ignored). -/
inductive LinkVal where
  | one (l : String)
  | many (ls : List String)
  | other
deriving DecidableEq, Repr, Inhabited

/-- The list of link records a `LinkVal` carries. -/
def LinkVal.toList : LinkVal → List String
  | .one l => [l]
  | .many ls => ls
  | .other => []

/-- An incoming agent payload dict (keys as consumed by
Agent.updateOrInsert).  `none` on a collection stands for an explicit null in
the payload; link, date, alias and further collaborator records are kept
opaque, as the spec prescribes for child collaborators. -/
structure AgentPayload where
  name : String
  sort_name : Option String := none
  lcnaf : Option String := none
  viaf : Option String := none
  biography : Option String := none
  aliases : Option (List String) := some []
  roles : Option (List String) := some []
  link : LinkVal := .many []
  dates : Option (List DateRec) := some []
  birth_date : Option String := none
  death_date : Option String := none
deriving DecidableEq, Repr, Inhabited

/-- The Jaro-Winkler acceptance threshold hard-coded in Agent.lookupAgent:
ninety-five hundredths. -/
def jwThreshold : ℚ := mkRat 95 100

/-- The agents matched by the authority-identifier query of Agent.lookupAgent:
`viaf == payload viaf OR lcnaf == payload lcnaf`.  SQLAlchemy translates a
comparison against a Python `None` into SQL `IS NULL`, and an SQL equality
against a non-null literal is unsatisfied on a NULL column, so the generated
filter coincides with equality of the nullable values. -/
def authorityMatches (agents : List AgentRow) (p : AgentScalars) : List AgentRow :=
  agents.filter (fun r => r.viaf == p.viaf || r.lcnaf == p.lcnaf)

/-- The agents matched by the fuzzy-name query of Agent.lookupAgent: stored
name scored against the payload name by the database jarowinkler function
(external to this repository, abstracted as the `sim` parameter), kept when
the score exceeds the threshold. -/
def fuzzyMatches (sim : String → String → ℚ) (agents : List AgentRow)
    (p : AgentScalars) : List AgentRow :=
  agents.filter (fun r => decide (jwThreshold < sim r.name p.name))

/-- The result of the fuzzy branch of Agent.lookupAgent: the query `one` call
returns the single row, while both NoResultFound and MultipleResultsFound are
swallowed and lead to the final `return None`. -/
def fuzzyResult (sim : String → String → ℚ) (agents : List AgentRow)
    (p : AgentScalars) : Option Nat :=
  match fuzzyMatches sim agents p with
  | [a] => some a.id
  | _ => none

/-- Agent.lookupAgent (src/model/agent.py lines 176-221): when either
authority identifier is non-null, query on them first; a unique row resolves,
several rows re-raise MultipleResultsFound, none falls through to the fuzzy
branch. -/
def lookupAgent (sim : String → String → ℚ) (agents : List AgentRow)
    (p : AgentScalars) : MRes (Option Nat) :=
  if p.viaf ≠ none ∨ p.lcnaf ≠ none then
    match authorityMatches agents p with
    | [a] => .ok (some a.id)
    | [] => .ok (fuzzyResult sim agents p)
    | _ => .err .multipleResults
  else .ok (fuzzyResult sim agents p)

/-! ## Instance rows, payloads, work delegation log, persisted state -/

/-- A persisted instances-table row (src/model/instance.py, class Instance). -/
structure InstanceRow where
  id : Nat
  title : Option String := none
  sub_title : Option String := none
  pub_place : Option String := none
  edition : Option String := none
  edition_statement : Option String := none
  volume : Option String := none
  table_of_contents : Option String := none
  copyright_date : Option String := none
  extent : Option String := none
  work_id : Option Nat := none
deriving DecidableEq, Repr, Inhabited

/-- A delegated call on the parent Work aggregate (Work itself is outside the
source tree; the spec specifies `updateFields` and `importSubjects`). -/
inductive WorkCall where
  | updateFields (series : Option String) (seriesPos : Option String)
  | importSubjects (subjects : List String)
deriving DecidableEq, Repr, Inhabited

/-- The `language` entry of an instance payload: Instance._addLanguages
accepts a null, a single string, or a collection. -/
inductive LangVal where
  | null
  | one (l : String)
  | many (ls : List String)
deriving DecidableEq, Repr, Inhabited

/-- The list of language values a `LangVal` carries after the normalization
of Instance._addLanguages. -/
def LangVal.toList : LangVal → List String
  | .null => []
  | .one l => [l]
  | .many ls => ls

/-- An incoming instance payload dict, with the child collections named as in
Instance.CHILD_FIELDS plus the work-owned fields. -/
structure InstancePayload where
  title : Option String := none
  sub_title : Option String := none
  pub_place : Option String := none
  edition : Option String := none
  edition_statement : Option String := none
  volume : Option String := none
  table_of_contents : Option String := none
  copyright_date : Option String := none
  extent : Option String := none
  identifiers : List String := []
  formats : List String := []
  agents : List AgentPayload := []
  measurements : List String := []
  dates : List DateRec := []
  links : List String := []
  alt_titles : List String := []
  rights : List String := []
  language : LangVal := .null
  series : Option String := none
  series_position : Option String := none
  subjects : List String := []
deriving DecidableEq, Repr, Inhabited

/-- The persisted graph state threaded through the merge engine: entity rows,
relationship rows of the many-to-many join tables, the global tables of the
resolve-or-insert collaborators, the log of delegations to the parent Work,
and fresh-id counters standing for primary-key generation. -/
structure State where
  agents : List AgentRow := []
  aliases : List (Nat × String) := []
  agentLinks : List (Nat × String) := []
  agentDates : List (Nat × DateRec) := []
  nextAgentId : Nat := 0
  instances : List InstanceRow := []
  identifiers : List String := []
  instIdentifiers : List (Nat × String) := []
  instLinks : List (Nat × String) := []
  instDates : List (Nat × DateRec) := []
  instMeasurements : List (Nat × String) := []
  instRights : List (Nat × String) := []
  instAltTitles : List (Nat × String) := []
  langVals : List String := []
  instLanguages : List (Nat × String) := []
  itemVals : List String := []
  instItems : List (Nat × String) := []
  agentRoles : List (Nat × Nat × String) := []
  workCalls : List (Nat × WorkCall) := []
  nextInstanceId : Nat := 0
deriving DecidableEq, Repr, Inhabited

/-! ## The agent merge pipeline (src/model/agent.py) -/

/-- The scalar overwrite rule of Agent.update: a field is written only when
the incoming value is non-null and non-empty after stripping whitespace. -/
def ovNonEmpty (cur : Option String) (inc : Option String) : Option String :=
  match inc with
  | some v => if pyStrip v ≠ "" then some v else cur
  | none => cur

/-- The scalar loop of Agent.update applied to one agent row: every key left
in the payload dict after the pops is `name`, `sort_name`, `lcnaf`, `viaf`,
`biography`; each `setattr` is guarded by the non-null non-empty test. -/
def applyAgentScalars (r : AgentRow) (sc : AgentScalars) : AgentRow :=
  { r with
    name := if pyStrip sc.name ≠ "" then sc.name else r.name,
    sort_name := ovNonEmpty r.sort_name sc.sort_name,
    lcnaf := ovNonEmpty r.lcnaf sc.lcnaf,
    viaf := ovNonEmpty r.viaf sc.viaf,
    biography := ovNonEmpty r.biography sc.biography }

/-- Alias.insertOrSkip (src/model/agent.py lines 283-298): escape the alias,
query for an existing alias row of this agent; on NoResultFound return a new
alias record, on a unique hit fall through returning nothing, and on several
hits the `one` call raises MultipleResultsFound. -/
def aliasInsertOrSkip (rows : List (Nat × String)) (aid : Nat) (a : String) :
    MRes (Option String) :=
  let esc := escStr a
  match rows.filter (fun pr => pr = (aid, esc)) with
  | [] => .ok (some esc)
  | [_] => .ok none
  | _ => .err .multipleResults

/-- The alias list comprehension of Agent.update: every insertOrSkip query is
evaluated against the session state before any of the returned alias records
is appended. -/
def aliasRecs (rows : List (Nat × String)) (aid : Nat) :
    List String → MRes (List (Option String))
  | [] => .ok []
  | a :: rest =>
    match aliasInsertOrSkip rows aid a with
    | .err e => .err e
    | .ok r =>
      match aliasRecs rows aid rest with
      | .err e => .err e
      | .ok rs => .ok (r :: rs)

/-- Modelled from the spec: the resolve-or-insert child collaborators
(Link.updateOrInsert, DateField.updateOrInsert, Measurement.updateOrInsert,
Rights.updateOrInsert — none of them under src/) report a record to append
exactly when no relationship row already binds that record to this owner, and
each loop iteration of the caller appends the reported record before the next
query runs.  This is that sequential loop over relationship rows keyed by an
owner id. -/
def guardedFold {α : Type} [DecidableEq α] (bound : List (Nat × α)) (owner : Nat) :
    List α → List (Nat × α)
  | [] => bound
  | x :: rest =>
    guardedFold (if (owner, x) ∈ bound then bound else bound ++ [(owner, x)]) owner rest

/-- The link and date loops shared by the tail of Agent.update. -/
def agentLinkDates (s : State) (aid : Nat) (link : LinkVal) (dates : List DateRec) :
    State :=
  let s2 := { s with agentLinks := guardedFold s.agentLinks aid link.toList }
  { s2 with agentDates := guardedFold s2.agentDates aid dates }

/-- Agent.update (src/model/agent.py lines 108-142): overwrite the scalar
fields under the non-empty guard, reconcile aliases through
Alias.insertOrSkip, then links and dates through their collaborators. -/
def agentUpdate (s : State) (aid : Nat) (sc : AgentScalars)
    (aliases : Option (List String)) (link : LinkVal) (dates : List DateRec) :
    MRes State :=
  let s1 := { s with
    agents := s.agents.map (fun r => if r.id = aid then applyAgentScalars r sc else r) }
  match aliases with
  | none => .ok (agentLinkDates s1 aid link dates)
  | some as_ =>
    match aliasRecs s1.aliases aid as_ with
    | .err e => .err e
    | .ok recs =>
      let s2 := { s1 with
        aliases := s1.aliases ++ (recs.filterMap id).map (fun a => (aid, a)) }
      .ok (agentLinkDates s2 aid link dates)

/-- Agent.insert (src/model/agent.py lines 144-174): build a fresh row
(defaulting `sort_name` to the name), then append every alias, link and date
record unconditionally. -/
def agentInsert (s : State) (sc : AgentScalars) (aliases : Option (List String))
    (link : LinkVal) (dates : List DateRec) : State × Nat :=
  let nid := s.nextAgentId
  let row : AgentRow :=
    { id := nid, name := sc.name,
      sort_name := match sc.sort_name with | none => some sc.name | some v => some v,
      lcnaf := sc.lcnaf, viaf := sc.viaf, biography := sc.biography }
  let s1 := { s with agents := s.agents ++ [row], nextAgentId := nid + 1 }
  let s2 := match aliases with
    | none => s1
    | some as_ => { s1 with aliases := s1.aliases ++ as_.map (fun a => (nid, a)) }
  let s3 := { s2 with agentLinks := s2.agentLinks ++ link.toList.map (fun l => (nid, l)) }
  ({ s3 with agentDates := s3.agentDates ++ dates.map (fun d => (nid, d)) }, nid)

/-- Python `str.lower()`, character by character. -/
def pyLower (t : String) : String := String.mk (t.data.map Char.toLower)

/-- The role normalization of Agent.updateOrInsert:
`list(set(r.lower() for r in roles))`, realized keeping first occurrences. -/
def dedupRoles (roles : List String) : List String :=
  (roles.map pyLower).foldl
    (fun acc x => if x ∈ acc then acc else acc ++ [x]) []

/-- Agent.updateOrInsert (src/model/agent.py lines 63-106): pop the child
collections and the top-level birth and death dates, default null roles and
dates to empty, clean the name, dedup the roles, fail on an empty cleaned
name, then look the agent up and either update the match or insert a fresh
row; returns the touched agent id together with the parsed roles. -/
def agentUpdateOrInsert (sim : String → String → ℚ) (s : State) (p : AgentPayload) :
    MRes (State × Nat × Option (List String)) :=
  let roles0 := p.roles.getD []
  let dates0 := p.dates.getD []
  match cleanChars p.name.data roles0 dates0 with
  | (nmChars, roles1, dates1) =>
    let nm := String.mk nmChars
    let sc : AgentScalars := ⟨nm, some nm, p.lcnaf, p.viaf, p.biography⟩
    let roles2 := dedupRoles roles1
    if (pyStrip nm).length < 1 then .err .dataError
    else
      match lookupAgent sim s.agents sc with
      | .err e => .err e
      | .ok (some aid) =>
        match agentUpdate s aid sc p.aliases p.link dates1 with
        | .err e => .err e
        | .ok s' => .ok (s', aid, some roles2)
      | .ok none =>
        match agentInsert s sc p.aliases p.link dates1 with
        | (s', nid) => .ok (s', nid, some roles2)

/-! ## The instance merge pipeline (src/model/instance.py) -/

/-- AgentInstances.roleExists (src/model/instance.py lines 352-361): does a
join row with this exact (agent, instance, role) triple exist?  The composite
primary key of the join table guarantees at most one row, so the
`one_or_none` query is a membership test on the join-table rows. -/
def roleExists (rows : List (Nat × Nat × String)) (aid : Nat) (role : String)
    (iid : Nat) : Bool :=
  (aid, iid, role) ∈ rows

/-- The role loop of Instance._addAgents over the join-table rows: create the
join row only when roleExists reports the triple absent. -/
def rolesAcc (rows : List (Nat × Nat × String)) (aid iid : Nat) :
    List String → List (Nat × Nat × String)
  | [] => rows
  | role :: rest =>
    rolesAcc (if roleExists rows aid role iid then rows else rows ++ [(aid, iid, role)])
      aid iid rest

/-- Instance._addAgents (src/model/instance.py lines 252-267): reconcile each
agent sub-payload through Agent.updateOrInsert; a DataError skips that one
record and continues, any other exception propagates; null parsed roles
default to author; each role is guarded by roleExists. -/
def addAgents (sim : String → String → ℚ) (s : State) (iid : Nat) :
    List AgentPayload → MRes State
  | [] => .ok s
  | p :: rest =>
    match agentUpdateOrInsert sim s p with
    | .err .dataError => addAgents sim s iid rest
    | .err e => .err e
    | .ok (s', aid, ropt) =>
      let roles := match ropt with | none => ["author"] | some rs => rs
      addAgents sim { s' with agentRoles := rolesAcc s'.agentRoles aid iid roles } iid rest

/-- Modelled from the spec: Identifier.returnOrInsert
(src/model/identifiers.py is not under src/) returns status `new` with a
fresh global identifier record when the value is unknown, otherwise status
`existing` with the stored record, and Identifier.getIdentiferRelationship
reports whether that record is already linked to this instance.  This is the
loop of Instance._addIdentifiers over the global identifier table and the
instance-identifier join rows: a `new` record is linked outright, an
`existing` record only when not yet linked to this instance. -/
def identAcc (global : List String) (rel : List (Nat × String)) (iid : Nat) :
    List String → List String × List (Nat × String)
  | [] => (global, rel)
  | v :: rest =>
    if v ∈ global then
      if (iid, v) ∈ rel then identAcc global rel iid rest
      else identAcc global (rel ++ [(iid, v)]) iid rest
    else identAcc (global ++ [v]) (rel ++ [(iid, v)]) iid rest

/-- Instance._addIdentifiers (src/model/instance.py lines 269-293). -/
def addIdentifiers (s : State) (iid : Nat) (idens : List String) : State :=
  { s with identifiers := (identAcc s.identifiers s.instIdentifiers iid idens).1,
           instIdentifiers := (identAcc s.identifiers s.instIdentifiers iid idens).2 }

/-- Modelled from the spec: Language.updateOrInsert (src/model/language.py
is not under src/) resolves or inserts the language in the global table, and
Language.lookupRelLang reports an existing relationship row, which suppresses
the append.  This is the per-language loop of Instance._addLanguages over the
global language table and the instance-language join rows. -/
def langAcc (global : List String) (rel : List (Nat × String)) (iid : Nat) :
    List String → List String × List (Nat × String)
  | [] => (global, rel)
  | l :: rest =>
    let g1 := if l ∈ global then global else global ++ [l]
    let r1 := if (iid, l) ∈ rel then rel else rel ++ [(iid, l)]
    langAcc g1 r1 iid rest

/-- Instance._addLanguages (src/model/instance.py lines 295-312): accept a
null, a single value, or a collection, then reconcile each language. -/
def addLanguages (s : State) (iid : Nat) (lv : LangVal) : State :=
  match lv with
  | .null => s
  | .one l =>
    { s with langVals := (langAcc s.langVals s.instLanguages iid [l]).1,
             instLanguages := (langAcc s.langVals s.instLanguages iid [l]).2 }
  | .many ls =>
    { s with langVals := (langAcc s.langVals s.instLanguages iid ls).1,
             instLanguages := (langAcc s.langVals s.instLanguages iid ls).2 }

/-- Modelled from the spec: Item.updateOrInsert (src/model/item.py is not
under src/) resolves or inserts the item record and reports the operation.
This is the item loop of Instance._addItems over the global item table and
the instance-item rows; the instance link is appended only on an `inserted`
result. -/
def itemAcc (global : List String) (rel : List (Nat × String)) (iid : Nat) :
    List String → List String × List (Nat × String)
  | [] => (global, rel)
  | it :: rest =>
    if it ∈ global then itemAcc global rel iid rest
    else itemAcc (global ++ [it]) (rel ++ [(iid, it)]) iid rest

/-- Instance._addItems (src/model/instance.py lines 314-321). -/
def addItems (s : State) (iid : Nat) (items : List String) : State :=
  { s with itemVals := (itemAcc s.itemVals s.instItems iid items).1,
           instItems := (itemAcc s.itemVals s.instItems iid items).2 }

/-- Modelled from the spec: AltTitle.insertOrSkip (src/model/altTitle.py is
not under src/) returns a fresh record only when no alt-title row with this
text is linked to this instance.  This is Instance._addAltTitles
(src/model/instance.py lines 323-326) over that collaborator; the source
materializes the filter over the whole list before appending any record. -/
def addAltTitles (s : State) (iid : Nat) (altTitles : List String) : State :=
  { s with instAltTitles := s.instAltTitles ++
      (altTitles.filter (fun t => (iid, t) ∉ s.instAltTitles)).map (fun t => (iid, t)) }

/-- The scalar overwrite rule of Instance.update: a field is written whenever
the incoming value is non-null — an empty string passes this guard. -/
def ovNonNull (cur : Option String) (inc : Option String) : Option String :=
  match inc with
  | some v => some v
  | none => cur

/-- The scalar loop of Instance.update applied to one instance row: after the
child, series and subject pops the remaining payload keys are the nine scalar
columns; each `setattr` is guarded only by `value is not None`. -/
def applyInstScalars (r : InstanceRow) (p : InstancePayload) : InstanceRow :=
  { r with
    title := ovNonNull r.title p.title,
    sub_title := ovNonNull r.sub_title p.sub_title,
    pub_place := ovNonNull r.pub_place p.pub_place,
    edition := ovNonNull r.edition p.edition,
    edition_statement := ovNonNull r.edition_statement p.edition_statement,
    volume := ovNonNull r.volume p.volume,
    table_of_contents := ovNonNull r.table_of_contents p.table_of_contents,
    copyright_date := ovNonNull r.copyright_date p.copyright_date,
    extent := ovNonNull r.extent p.extent }

/-- Modelled from the spec: Identifier.getByIdentifier
(src/model/identifiers.py is not under src/) resolves identifier overlap to
an existing owner id, or none. -/
def getByIdentifier (s : State) (idens : List String) : Option Nat :=
  (s.instIdentifiers.find? (fun pr => idens.contains pr.2)).map (fun pr => pr.1)

/-- Instance.lookupInstance (src/model/instance.py lines 132-144): resolve a
candidate by identifier overlap; when the incoming payload carries a non-null
volume, fetch the candidate's stored volume and discard the candidate when
the two differ. -/
def lookupInstance (s : State) (idens : List String) (volume : Option String) :
    Option Nat :=
  match getByIdentifier s idens, volume with
  | some eid, some v =>
    match s.instances.find? (fun r => r.id == eid) with
    | some row => if row.volume ≠ some v then none else some eid
    | none => some eid
  | r, _ => r

/-- The head of Instance.update: pop the work-owned fields — `series`,
`series_position` and `subjects` are never set as instance attributes — and
delegate them to the parent work when one is linked, then run the scalar loop
under the non-null guard. -/
def instHead (s : State) (iid : Nat) (p : InstancePayload) : State :=
  let wopt := (s.instances.find? (fun r => r.id == iid)).bind (fun r => r.work_id)
  let s1 :=
    match wopt with
    | some wid =>
      { s with workCalls := s.workCalls ++
          [(wid, WorkCall.updateFields p.series p.series_position),
           (wid, WorkCall.importSubjects p.subjects)] }
    | none => s
  { s1 with
    instances := s1.instances.map (fun r => if r.id = iid then applyInstScalars r p else r) }

/-- The tail of Instance.update: reconcile identifiers, languages, items,
alt-titles, measurements, dates, links and rights after the agents. -/
def instTail (s3 : State) (iid : Nat) (p : InstancePayload) : State :=
  let s4 := addIdentifiers s3 iid p.identifiers
  let s5 := addLanguages s4 iid p.language
  let s6 := addItems s5 iid p.formats
  let s7 := addAltTitles s6 iid p.alt_titles
  let s8 := { s7 with instMeasurements := guardedFold s7.instMeasurements iid p.measurements }
  let s9 := { s8 with instDates := guardedFold s8.instDates iid p.dates }
  let s10 := { s9 with instLinks := guardedFold s9.instLinks iid p.links }
  { s10 with instRights := guardedFold s10.instRights iid p.rights }

/-- Instance.update (src/model/instance.py lines 146-208): extract the child
collections, pop the work-owned fields and delegate them to the parent work
when one is linked, overwrite the scalar fields under the non-null guard,
then reconcile agents, identifiers, languages, items, alt-titles,
measurements, dates, links and rights. -/
def instanceUpdate (sim : String → String → ℚ) (s : State) (iid : Nat)
    (p : InstancePayload) : MRes State :=
  match addAgents sim (instHead s iid p) iid p.agents with
  | .err e => .err e
  | .ok s3 => .ok (instTail s3 iid p)

/-- The head of Instance.insert: build the fresh row from the scalar fields —
the work-owned fields are popped and discarded, no Work delegation happens
here, and the new row carries no work link. -/
def instInsertHead (s : State) (p : InstancePayload) : State :=
  let row : InstanceRow :=
    { id := s.nextInstanceId, title := p.title, sub_title := p.sub_title,
      pub_place := p.pub_place, edition := p.edition,
      edition_statement := p.edition_statement, volume := p.volume,
      table_of_contents := p.table_of_contents,
      copyright_date := p.copyright_date, extent := p.extent, work_id := none }
  { s with instances := s.instances ++ [row], nextInstanceId := s.nextInstanceId + 1 }

/-- The tail of Instance.insert: identifiers and alt-titles are reconciled,
measurements, links, dates and rights are assigned wholesale, then languages
and items are reconciled. -/
def instInsertTail (s2 : State) (iid : Nat) (p : InstancePayload) : State :=
  let s3 := addIdentifiers s2 iid p.identifiers
  let s4 := addAltTitles s3 iid p.alt_titles
  let s5 := { s4 with instMeasurements := s4.instMeasurements ++ p.measurements.map (fun m => (iid, m)) }
  let s6 := { s5 with instLinks := s5.instLinks ++ p.links.map (fun l => (iid, l)) }
  let s7 := { s6 with instDates := s6.instDates ++ p.dates.map (fun d => (iid, d)) }
  let s8 := { s7 with instRights := s7.instRights ++ p.rights.map (fun rr => (iid, rr)) }
  let s9 := addLanguages s8 iid p.language
  addItems s9 iid p.formats

/-- Instance.insert (src/model/instance.py lines 210-250). -/
def instanceInsert (sim : String → String → ℚ) (s : State) (p : InstancePayload) :
    MRes (State × Nat) :=
  match addAgents sim (instInsertHead s p) s.nextInstanceId p.agents with
  | .err e => .err e
  | .ok s2 => .ok (instInsertTail s2 s.nextInstanceId p, s.nextInstanceId)

/-- The caller-supplied work link assignment of Instance.updateOrInsert. -/
def setWork (s : State) (iid : Nat) (work : Option Nat) : State :=
  { s with instances := s.instances.map (fun r =>
      if r.id = iid then { r with work_id := work } else r) }

/-- Instance.updateOrInsert (src/model/instance.py lines 108-130): look the
instance up by identifiers and volume; on a hit, link the caller-supplied
work when the stored instance has none, then update; on a miss, insert. -/
def instanceUpdateOrInsert (sim : String → String → ℚ) (s : State)
    (p : InstancePayload) (work : Option Nat) : MRes (State × Nat × String) :=
  match lookupInstance s p.identifiers p.volume with
  | some eid =>
    let s1 :=
      match s.instances.find? (fun r => r.id == eid) with
      | some row => if row.work_id = none ∧ work ≠ none then setWork s eid work else s
      | none => s
    match instanceUpdate sim s1 eid p with
    | .err e => .err e
    | .ok s2 => .ok (s2, eid, "updated")
  | none =>
    match instanceInsert sim s p with
    | .err e => .err e
    | .ok (s2, nid) => .ok (s2, nid, "inserted")

/-- Extract the success state of a merge result (the default state on an
error branch). -/
def okState : MRes State → State
  | .ok s => s
  | .err _ => {}

/-! ## The stream-facing updater (lib/updaters, outside src/) -/

/-- An inbound stream event: a data payload plus an attempt counter
(defaulting to zero), as in the updater tests. -/
structure UpdEvent where
  data : String
  attempts : Nat := 0
deriving DecidableEq, Repr, Inhabited

/-- The fixed retry ceiling of the updaters: attempts reaching three are
fatal, per the spec's retry contract and the updater tests. -/
def retryCeiling : Nat := 3

/-- The outcome of one lookupRecord call: the resolved target, a transition
to the requeued state carrying the event republished onto the retry stream,
or a fatal failure publishing nothing. -/
inductive LookupStep where
  | lookedUp (target : Nat)
  | requeued (republished : UpdEvent)
  | failed
deriving DecidableEq, Repr, Inhabited

/-- Modelled from the spec: ReconciliationUpdater.lookupRecord — the updater
classes under lib/updaters are not under src/; behavior follows spec section
4.5 and the lookupRecord tests of src/tests/test_itemUpdater.py and
src/tests/test_workUpdater.py.  On a hit the target is kept; on a miss below
the retry ceiling the same event is republished with the attempt counter
incremented; on a miss at the ceiling the lookup is fatal and nothing is
republished. -/
def lookupRecord (found : Option Nat) (ev : UpdEvent) : LookupStep :=
  match found with
  | some t => .lookedUp t
  | none =>
    if ev.attempts < retryCeiling then .requeued { data := ev.data, attempts := ev.attempts + 1 }
    else .failed

/-! ## Result helpers, invariants, and concrete instantiations -/

/-- Whether a merge result succeeded. -/
def isOk {α : Type} : MRes α → Bool
  | .ok _ => true
  | .err _ => false

/-- The state component of an Instance.updateOrInsert result. -/
def outState3 : MRes (State × Nat × String) → State
  | .ok (s, _, _) => s
  | .err _ => {}

/-- The status tag of an Instance.updateOrInsert result. -/
def outTag3 : MRes (State × Nat × String) → String
  | .ok (_, _, t) => t
  | .err _ => ""

/-- The parsed-roles component of an Agent.updateOrInsert result. -/
def rolesOfRes : MRes (State × Nat × Option (List String)) → Option (List String)
  | .ok (_, _, r) => r
  | .err _ => none

/-- The relationship rows whose duplication the merge engine guards against:
aliases, agent links, agent dates, instance identifiers, instance links,
instance dates, and the AgentRole join rows. -/
def RelKeysNodup (s : State) : Prop :=
  s.aliases.Nodup ∧ s.agentLinks.Nodup ∧ s.agentDates.Nodup ∧
  s.instIdentifiers.Nodup ∧ s.instLinks.Nodup ∧ s.instDates.Nodup ∧
  s.agentRoles.Nodup

/-- Primary keys are generated below the fresh-id counter: every agent row id
and every agent-keyed relationship row key is below nextAgentId. -/
def AgentIdsBound (s : State) : Prop :=
  (∀ r ∈ s.agents, r.id < s.nextAgentId) ∧
  (∀ pr ∈ s.aliases, pr.1 < s.nextAgentId) ∧
  (∀ pr ∈ s.agentLinks, pr.1 < s.nextAgentId) ∧
  (∀ pr ∈ s.agentDates, pr.1 < s.nextAgentId) ∧
  (∀ tr ∈ s.agentRoles, tr.1 < s.nextAgentId)

/-- Referential closure of the instance-identifier join rows against the
global identifier table. -/
def IdentsClosed (s : State) : Prop :=
  ∀ pr ∈ s.instIdentifiers, pr.2 ∈ s.identifiers

/-- The no-duplicate-rows invariant preserved by the merge engine. -/
def MergeInv (s : State) : Prop :=
  RelKeysNodup s ∧ AgentIdsBound s ∧ IdentsClosed s

instance decRelKeysNodup (s : State) : Decidable (RelKeysNodup s) := by
  unfold RelKeysNodup
  infer_instance

instance decAgentIdsBound (s : State) : Decidable (AgentIdsBound s) := by
  unfold AgentIdsBound
  infer_instance

instance decIdentsClosed (s : State) : Decidable (IdentsClosed s) := by
  unfold IdentsClosed
  infer_instance

instance decMergeInv (s : State) : Decidable (MergeInv s) := by
  unfold MergeInv
  infer_instance

/-- The incoming agent child collections are internally duplicate-free: the
alias list, the link records, and the date records as they stand after
Agent._cleanName appended the lifespan dates.  (Agent.insert appends these
collections without duplicate checks, so internal duplicates would become
duplicate rows.) -/
def AgentChildrenWf (p : AgentPayload) : Prop :=
  (p.aliases.getD []).Nodup ∧ p.link.toList.Nodup ∧
  (cleanChars p.name.data (p.roles.getD []) (p.dates.getD [])).2.2.Nodup

instance decAgentChildrenWf (p : AgentPayload) : Decidable (AgentChildrenWf p) := by
  unfold AgentChildrenWf
  infer_instance

/-- An exact-match similarity scorer for concrete instantiations: the
database jarowinkler function (external to this repository) scores identical
strings at one, the sole similarity fact the concrete runs rely on. -/
def simEq : String → String → ℚ := fun a b => if a = b then 1 else 0

/-- Concrete state for the scalar-overwrite counterexample: one stored
instance with a known title. -/
def cex1State : State :=
  { instances := [{ id := 0, title := some ("Old") }], nextInstanceId := 1 }

/-- Concrete payload carrying an empty-string title. -/
def cex1Payload : InstancePayload := { title := some ("") }

/-- Concrete stored agent for the resolution counterexample: authority
identifiers disjoint from the payload's, same name. -/
def cex2Agent : AgentRow :=
  { id := 7, name := "Twain, Mark", sort_name := none,
    lcnaf := some ("L2"), viaf := some ("456"), biography := none }

/-- Concrete payload scalars for the resolution counterexample. -/
def cex2Scalars : AgentScalars :=
  { name := "Twain, Mark", sort_name := none,
    lcnaf := some ("L1"), viaf := some ("123"), biography := none }

/-- Concrete stored agent for the resolution witness. -/
def wit2Agent : AgentRow :=
  { id := 3, name := "Dickens, Charles", sort_name := none,
    lcnaf := none, viaf := some ("88"), biography := none }

/-- Concrete payload scalars for the resolution witness. -/
def wit2Scalars : AgentScalars :=
  { name := "Dickens, C.", sort_name := none,
    lcnaf := some ("L9"), viaf := some ("88"), biography := none }

/-- Concrete state for the author-default failing input: one stored
instance, no agents. -/
def bug3State : State := { instances := [{ id := 0 }], nextInstanceId := 1 }

/-- The author-default failing input: an agent payload whose roles list is
empty and whose name carries no role bracket, so the parsed roles come back
empty. -/
def bug3Agent : AgentPayload := { name := "Smith, John" }

/-- Concrete payload for the work-delegation counterexample: an instance
payload carrying work-owned fields into the insert path. -/
def cex4Payload : InstancePayload :=
  { title := some ("T"), series := some ("S"), subjects := [("x")] }

/-- Concrete state for the work-delegation witness: a stored instance already
linked to work 4 and matched by a stored identifier. -/
def wit4State : State :=
  { instances := [{ id := 0, work_id := some 4 }],
    identifiers := [("i1")], instIdentifiers := [(0, "i1")],
    nextInstanceId := 1 }

/-- Concrete payload for the work-delegation witness. -/
def wit4Payload : InstancePayload :=
  { identifiers := [("i1")], series := some ("S"),
    series_position := some ("2"), subjects := [("s1")] }

/-- Concrete state for the duplicate-rows counterexample: an instance and two
stored agents sharing the generic name the payload carries. -/
def cex6State : State :=
  { agents :=
      [{ id := 0, name := "Generic", sort_name := none, lcnaf := none,
         viaf := none, biography := none },
       { id := 1, name := "Generic", sort_name := none, lcnaf := none,
         viaf := none, biography := none }],
    nextAgentId := 2, instances := [{ id := 0 }], nextInstanceId := 1 }

/-- Concrete payload for the duplicate-rows counterexample: a fuzzy-ambiguous
agent name with an internally duplicated alias list. -/
def cex6Payload : InstancePayload :=
  { agents := [{ name := "Generic", aliases := some [("X"), ("X")],
                 roles := some [("author")] }] }

/-- Concrete state for the duplicate-rows witness. -/
def wit6State : State := { instances := [{ id := 0 }], nextInstanceId := 1 }

/-- Concrete payload for the duplicate-rows witness. -/
def wit6Payload : InstancePayload :=
  { identifiers := [("isbn1")],
    agents := [{ name := "Writer, Sam", aliases := some [("A")],
                 roles := some [("author")] }],
    dates := [⟨"1901", "1901", "publication_date"⟩],
    links := [("u1")] }

/-- Concrete state for the volume-disambiguation witness: a stored instance
with volume one, linked to a stored identifier. -/
def wit8State : State :=
  { instances := [{ id := 5, volume := some ("1") }],
    identifiers := [("issn1")], instIdentifiers := [(5, "issn1")] }

/-- The stored instance row of the volume-disambiguation witness. -/
def wit8Row : InstanceRow := { id := 5, volume := some ("1") }

/-- An agent payload whose name cleans to the empty string: a lone dot is
stripped entirely by the punctuation strip. -/
def wit9Bad : AgentPayload := { name := "." }

/-- An agent payload that resolves normally. -/
def wit9Good : AgentPayload := { name := "Good, Author", roles := some [("editor")] }

/-- Concrete agent state for the scalar-overwrite witness. -/
def wit1AgState : State :=
  { agents := [{ id := 0, name := "Old", sort_name := none, lcnaf := none,
                 viaf := none, biography := some ("Bio kept") }],
    nextAgentId := 1 }

/-- Concrete cleaned scalars for the scalar-overwrite witness: a whitespace
biography is skipped, a non-empty viaf overwrites. -/
def wit1Sc : AgentScalars :=
  { name := "New, Name", sort_name := some ("New, Name"), lcnaf := none,
    viaf := some ("77"), biography := some ("  ") }

/-- The instance-side fields of the state, untouched by the agent merge
pipeline: a frame property relating a state to its successor. -/
def InstFrame (s t : State) : Prop :=
  t.instances = s.instances ∧ t.identifiers = s.identifiers ∧
  t.instIdentifiers = s.instIdentifiers ∧ t.instLinks = s.instLinks ∧
  t.instDates = s.instDates ∧ t.instMeasurements = s.instMeasurements ∧
  t.instRights = s.instRights ∧ t.instAltTitles = s.instAltTitles ∧
  t.langVals = s.langVals ∧ t.instLanguages = s.instLanguages ∧
  t.itemVals = s.itemVals ∧ t.instItems = s.instItems ∧
  t.workCalls = s.workCalls ∧ t.nextInstanceId = s.nextInstanceId

/-! ## Frame and helper lemmas -/

theorem InstFrame.refl (s : State) : InstFrame s s :=
  ⟨rfl, rfl, rfl, rfl, rfl, rfl, rfl, rfl, rfl, rfl, rfl, rfl, rfl, rfl⟩

theorem InstFrame.trans {s t u : State} (h1 : InstFrame s t) (h2 : InstFrame t u) :
    InstFrame s u := by
  obtain ⟨a1, a2, a3, a4, a5, a6, a7, a8, a9, a10, a11, a12, a13, a14⟩ := h1
  obtain ⟨b1, b2, b3, b4, b5, b6, b7, b8, b9, b10, b11, b12, b13, b14⟩ := h2
  exact ⟨b1.trans a1, b2.trans a2, b3.trans a3, b4.trans a4, b5.trans a5,
    b6.trans a6, b7.trans a7, b8.trans a8, b9.trans a9, b10.trans a10,
    b11.trans a11, b12.trans a12, b13.trans a13, b14.trans a14⟩

theorem addLanguages_eq (s : State) (iid : Nat) (lv : LangVal) :
    addLanguages s iid lv =
      { s with langVals := (langAcc s.langVals s.instLanguages iid lv.toList).1,
               instLanguages := (langAcc s.langVals s.instLanguages iid lv.toList).2 } := by
  cases lv <;> rfl

theorem agentUpdate_ok_agents {s : State} {aid : Nat} {sc : AgentScalars}
    {al : Option (List String)} {lk : LinkVal} {dt : List DateRec} {s' : State}
    (h : agentUpdate s aid sc al lk dt = .ok s') :
    s'.agents = s.agents.map (fun r => if r.id = aid then applyAgentScalars r sc else r) := by
  simp only [agentUpdate] at h
  split at h
  · cases h; rfl
  · split at h
    · simp at h
    · cases h; rfl

theorem agentUpdate_frame {s : State} {aid : Nat} {sc : AgentScalars}
    {al : Option (List String)} {lk : LinkVal} {dt : List DateRec} {s' : State}
    (h : agentUpdate s aid sc al lk dt = .ok s') :
    InstFrame s s' ∧ s'.agentRoles = s.agentRoles ∧ s'.nextAgentId = s.nextAgentId := by
  simp only [agentUpdate] at h
  split at h
  · cases h
    exact ⟨⟨rfl, rfl, rfl, rfl, rfl, rfl, rfl, rfl, rfl, rfl, rfl, rfl, rfl, rfl⟩, rfl, rfl⟩
  · split at h
    · simp at h
    · cases h
      exact ⟨⟨rfl, rfl, rfl, rfl, rfl, rfl, rfl, rfl, rfl, rfl, rfl, rfl, rfl, rfl⟩, rfl, rfl⟩

theorem agentInsert_frame (s : State) (sc : AgentScalars) (al : Option (List String))
    (lk : LinkVal) (dt : List DateRec) :
    InstFrame s (agentInsert s sc al lk dt).1 ∧
    (agentInsert s sc al lk dt).1.agentRoles = s.agentRoles ∧
    s.nextAgentId ≤ (agentInsert s sc al lk dt).1.nextAgentId ∧
    (agentInsert s sc al lk dt).2 < (agentInsert s sc al lk dt).1.nextAgentId := by
  cases al <;>
    exact ⟨⟨rfl, rfl, rfl, rfl, rfl, rfl, rfl, rfl, rfl, rfl, rfl, rfl, rfl, rfl⟩, rfl,
      Nat.le_succ _, Nat.lt_succ_self _⟩

theorem fuzzyResult_some_mem {sim : String → String → ℚ} {agents : List AgentRow}
    {p : AgentScalars} {aid : Nat} (h : fuzzyResult sim agents p = some aid) :
    ∃ r ∈ agents, r.id = aid := by
  unfold fuzzyResult at h
  split at h
  · next a heq =>
    refine ⟨a, ?_, by injection h⟩
    have : a ∈ fuzzyMatches sim agents p := by rw [heq]; exact List.mem_singleton_self a
    exact List.mem_of_mem_filter this
  · simp at h

theorem lookupAgent_some_mem {sim : String → String → ℚ} {agents : List AgentRow}
    {p : AgentScalars} {aid : Nat} (h : lookupAgent sim agents p = .ok (some aid)) :
    ∃ r ∈ agents, r.id = aid := by
  unfold lookupAgent at h
  split at h
  · split at h
    · next a heq =>
      refine ⟨a, ?_, Option.some.inj (MRes.ok.inj h)⟩
      have : a ∈ authorityMatches agents p := by rw [heq]; exact List.mem_singleton_self a
      exact List.mem_of_mem_filter this
    · exact fuzzyResult_some_mem (MRes.ok.inj h)
    · simp at h
  · exact fuzzyResult_some_mem (MRes.ok.inj h)

theorem agentUpdateOrInsert_frame {sim : String → String → ℚ} {s : State}
    {p : AgentPayload} {s' : State} {aid : Nat} {ropt : Option (List String)}
    (h : agentUpdateOrInsert sim s p = .ok (s', aid, ropt)) :
    InstFrame s s' ∧ s'.agentRoles = s.agentRoles ∧
    s.nextAgentId ≤ s'.nextAgentId := by
  simp only [agentUpdateOrInsert] at h
  split at h
  · simp at h
  · split at h
    · simp at h
    · split at h
      · simp at h
      · next heq =>
        cases h
        obtain ⟨h1, h2, h3⟩ := agentUpdate_frame heq
        exact ⟨h1, h2, le_of_eq h3.symm⟩
    · cases h
      exact ⟨(agentInsert_frame s _ p.aliases p.link _).1,
        (agentInsert_frame s _ p.aliases p.link _).2.1,
        (agentInsert_frame s _ p.aliases p.link _).2.2.1⟩

theorem agentUpdateOrInsert_aid_lt {sim : String → String → ℚ} {s : State}
    {p : AgentPayload} {s' : State} {aid : Nat} {ropt : Option (List String)}
    (hb : ∀ r ∈ s.agents, r.id < s.nextAgentId)
    (h : agentUpdateOrInsert sim s p = .ok (s', aid, ropt)) :
    aid < s'.nextAgentId := by
  simp only [agentUpdateOrInsert] at h
  split at h
  · simp at h
  · split at h
    · simp at h
    · next aid' heq1 =>
      split at h
      · simp at h
      · next heq2 =>
        cases h
        obtain ⟨_, _, h3⟩ := agentUpdate_frame heq2
        obtain ⟨r, hr, hrid⟩ := lookupAgent_some_mem heq1
        rw [h3, ← hrid]
        exact hb r hr
    · cases h
      exact (agentInsert_frame s _ p.aliases p.link _).2.2.2

theorem addAgents_frame {sim : String → String → ℚ} {iid : Nat} :
    ∀ {ps : List AgentPayload} {s s' : State},
    addAgents sim s iid ps = .ok s' → InstFrame s s' := by
  intro ps
  induction ps with
  | nil =>
    intro s s' h
    cases h
    exact InstFrame.refl _
  | cons p rest ih =>
    intro s s' h
    simp only [addAgents] at h
    split at h
    · exact ih h
    · simp at h
    · next s2 aid2 ropt heq =>
      have hfr := (agentUpdateOrInsert_frame heq).1
      have h2 := ih h
      refine InstFrame.trans (InstFrame.trans hfr ?_) h2
      exact ⟨rfl, rfl, rfl, rfl, rfl, rfl, rfl, rfl, rfl, rfl, rfl, rfl, rfl, rfl⟩

theorem instHead_instances (s : State) (iid : Nat) (p : InstancePayload) :
    (instHead s iid p).instances =
      s.instances.map (fun r => if r.id = iid then applyInstScalars r p else r) := by
  rcases h : (s.instances.find? (fun r => r.id == iid)).bind (fun r => r.work_id) with _ | wid <;>
    simp [instHead, h]

theorem instTail_instances (s : State) (iid : Nat) (p : InstancePayload) :
    (instTail s iid p).instances = s.instances := by
  simp [instTail, addIdentifiers, addItems, addAltTitles, addLanguages_eq]

theorem instTail_agentSide (s : State) (iid : Nat) (p : InstancePayload) :
    (instTail s iid p).agents = s.agents ∧
    (instTail s iid p).aliases = s.aliases ∧
    (instTail s iid p).agentLinks = s.agentLinks ∧
    (instTail s iid p).agentDates = s.agentDates ∧
    (instTail s iid p).agentRoles = s.agentRoles ∧
    (instTail s iid p).nextAgentId = s.nextAgentId ∧
    (instTail s iid p).workCalls = s.workCalls := by
  refine ⟨?_, ?_, ?_, ?_, ?_, ?_, ?_⟩ <;>
    simp [instTail, addIdentifiers, addItems, addAltTitles, addLanguages_eq]

theorem instTail_rels (s : State) (iid : Nat) (p : InstancePayload) :
    (instTail s iid p).identifiers = (identAcc s.identifiers s.instIdentifiers iid p.identifiers).1 ∧
    (instTail s iid p).instIdentifiers = (identAcc s.identifiers s.instIdentifiers iid p.identifiers).2 ∧
    (instTail s iid p).instDates = guardedFold s.instDates iid p.dates ∧
    (instTail s iid p).instLinks = guardedFold s.instLinks iid p.links := by
  refine ⟨?_, ?_, ?_, ?_⟩ <;>
    simp [instTail, addIdentifiers, addItems, addAltTitles, addLanguages_eq]

/-! ## Claim C5: bounded retry on lookup misses -/

/-- Claim C5: for every incoming event whose target-record lookup returns
none, an attempt counter below the retry ceiling of three republishes the
same event with the counter incremented by one, while a counter at the
ceiling fails fatally and publishes no requeue. -/
theorem claim5RetryCeiling (ev : UpdEvent) :
    (ev.attempts < 3 →
      lookupRecord none ev =
        .requeued { data := ev.data, attempts := ev.attempts + 1 }) ∧
    (ev.attempts = 3 → lookupRecord none ev = .failed) := by
  constructor <;> intro h <;> simp [lookupRecord, retryCeiling, h]

/-- Witness for claim C5 at the spec's scenario events. -/
theorem claim5Witness :
    lookupRecord none { data := "d", attempts := 0 } =
      .requeued { data := "d", attempts := 1 } ∧
    lookupRecord none { data := "d", attempts := 3 } = .failed :=
  ⟨(claim5RetryCeiling { data := "d", attempts := 0 }).1 (by decide),
   (claim5RetryCeiling { data := "d", attempts := 3 }).2 (by decide)⟩

/-! ## Claim C8: volume disambiguation in instance lookup -/

/-- Claim C8: whenever the identifier collaborator yields a candidate
instance, a non-null incoming volume is compared against the candidate's
stored volume — a mismatch discards the candidate, a match or a null incoming
volume returns the candidate id. -/
theorem claim8VolumeCheck (s : State) (idens : List String) (cid : Nat)
    (row : InstanceRow)
    (hga : getByIdentifier s idens = some cid)
    (hrow : s.instances.find? (fun r => r.id == cid) = some row) :
    (∀ v : String, lookupInstance s idens (some v) =
      if row.volume = some v then some cid else none) ∧
    lookupInstance s idens none = some cid := by
  constructor
  · intro v
    simp only [lookupInstance, hga, hrow]
    by_cases h : row.volume = some v <;> simp [h]
  · simp [lookupInstance, hga]

/-- Witness for claim C8 at the spec's periodical scenario: stored volume
one, incoming volume two discards, incoming volume one or no volume
resolves. -/
theorem claim8Witness :
    lookupInstance wit8State [("issn1")] (some ("2")) = none ∧
    lookupInstance wit8State [("issn1")] (some ("1")) = some 5 ∧
    lookupInstance wit8State [("issn1")] none = some 5 := by
  have h := claim8VolumeCheck wit8State [("issn1")] 5 wit8Row (by decide) (by decide)
  refine ⟨(h.1 ("2")).trans (by decide), (h.1 ("1")).trans (by decide), h.2⟩

/-! ## Claim C10: top-level birth and death dates are popped -/

/-- Claim C10: Agent.updateOrInsert removes the top-level birth_date and
death_date keys before matching and merging, so the whole merge outcome is
independent of those payload values in both the update and the insert
path. -/
theorem claim10BirthDeathPopped (sim : String → String → ℚ) (s : State)
    (p : AgentPayload) (b d : Option String) :
    agentUpdateOrInsert sim s { p with birth_date := b, death_date := d } =
      agentUpdateOrInsert sim s p := rfl

/-! ## Claim C3: the author default is dead code -/

/-- Claim C3, evaluated at the failing input: an agent payload whose parsed
roles come back empty (Agent.updateOrInsert returns the empty list, never a
null) creates no AgentRole row at all — the author default of
Instance._addAgents only fires on a null roles value, so the role does not
default to author as the spec requires. -/
theorem claim3AuthorDefaultDead :
    rolesOfRes (agentUpdateOrInsert simEq bug3State bug3Agent) = some [] ∧
    isOk (agentUpdateOrInsert simEq bug3State bug3Agent) = true ∧
    (okState (addAgents simEq bug3State 0 [bug3Agent])).agentRoles = [] ∧
    isOk (addAgents simEq bug3State 0 [bug3Agent]) = true := by decide

/-! ## Claim C2: agent resolution order -/

/-- Claim C2 as amended: agent resolution short-circuits in a fixed order —
with an authority identifier present, a unique authority match resolves to an
agent satisfying the authority filter, several matches raise the fatal
integrity error, zero matches fall through to the fuzzy branch; without
authority identifiers the fuzzy branch decides directly; the fuzzy branch
resolves exactly one above-threshold match and returns none otherwise.  After
an authority fall-through the fuzzy branch matches on name similarity alone,
so it can return an agent sharing neither supplied identifier. -/
theorem claim2ResolutionOrder (sim : String → String → ℚ)
    (agents : List AgentRow) (p : AgentScalars) :
    ((p.viaf ≠ none ∨ p.lcnaf ≠ none) →
      (∀ a : AgentRow, authorityMatches agents p = [a] →
        lookupAgent sim agents p = .ok (some a.id) ∧
          (a.viaf = p.viaf ∨ a.lcnaf = p.lcnaf)) ∧
      (2 ≤ (authorityMatches agents p).length →
        lookupAgent sim agents p = .err .multipleResults) ∧
      (authorityMatches agents p = [] →
        lookupAgent sim agents p = .ok (fuzzyResult sim agents p))) ∧
    ((p.viaf = none ∧ p.lcnaf = none) →
      lookupAgent sim agents p = .ok (fuzzyResult sim agents p)) ∧
    (∀ a : AgentRow, fuzzyMatches sim agents p = [a] →
      fuzzyResult sim agents p = some a.id ∧ jwThreshold < sim a.name p.name) ∧
    ((fuzzyMatches sim agents p).length ≠ 1 →
      fuzzyResult sim agents p = none) := by
  refine ⟨fun hid => ⟨?_, ?_, ?_⟩, fun hno => ?_, fun a ha => ⟨?_, ?_⟩, ?_⟩
  · intro a ha
    constructor
    · simp [lookupAgent, hid, ha]
    · have hmem : a ∈ authorityMatches agents p := by
        rw [ha]; exact List.mem_singleton_self a
      have := (List.mem_filter.mp hmem).2
      simpa using this
  · intro hlen
    rw [lookupAgent, if_pos hid]
    rcases hm : authorityMatches agents p with _ | ⟨x, _ | ⟨y, rest⟩⟩
    · rw [hm] at hlen; simp at hlen
    · rw [hm] at hlen; simp at hlen
    · rfl
  · intro hnil
    simp [lookupAgent, hid, hnil]
  · simp [lookupAgent, hno.1, hno.2]
  · simp [fuzzyResult, ha]
  · have hmem : a ∈ fuzzyMatches sim agents p := by
      rw [ha]; exact List.mem_singleton_self a
    have := (List.mem_filter.mp hmem).2
    simpa using this
  · intro hlen
    rcases hm : fuzzyMatches sim agents p with _ | ⟨x, _ | ⟨y, rest⟩⟩
    · simp [fuzzyResult, hm]
    · rw [hm] at hlen; simp at hlen
    · simp [fuzzyResult, hm]

/-- Counterexample to claim C2 as stated: a payload with both authority
identifiers set falls through the authority query (no stored row matches
either identifier) and the fuzzy branch resolves an agent sharing neither
identifier — so resolution can return an agent other than one sharing the
supplied authority identifier. -/
theorem claim2Counterexample :
    lookupAgent simEq [cex2Agent] cex2Scalars = .ok (some 7) ∧
    cex2Scalars.viaf ≠ none ∧ cex2Scalars.lcnaf ≠ none ∧
    cex2Agent.viaf ≠ cex2Scalars.viaf ∧ cex2Agent.lcnaf ≠ cex2Scalars.lcnaf := by
  decide

/-- Witness for claim C2: a unique authority match resolves to the stored
agent sharing the payload's viaf. -/
theorem claim2Witness :
    lookupAgent simEq [wit2Agent] wit2Scalars = .ok (some 3) ∧
    (wit2Agent.viaf = wit2Scalars.viaf ∨ wit2Agent.lcnaf = wit2Scalars.lcnaf) := by
  have h := ((claim2ResolutionOrder simEq [wit2Agent] wit2Scalars).1
    (by decide)).1 wit2Agent (by decide)
  exact ⟨h.1, h.2⟩

theorem InstFrame.workCalls_eq {s t : State} (h : InstFrame s t) :
    t.workCalls = s.workCalls :=
  h.2.2.2.2.2.2.2.2.2.2.2.2.1

/-! ## Claim C1: the scalar overwrite guards -/

/-- Claim C1 as amended: Agent.update overwrites a scalar field exactly when
the incoming value is non-null and non-empty after stripping whitespace, but
Instance.update overwrites whenever the incoming value is non-null — an
empty-string value does overwrite an instance field, so the rule is not
uniform across the two aggregates. -/
theorem claim1ScalarOverwrite (sim : String → String → ℚ) (s : State) (aid : Nat)
    (sc : AgentScalars) (al : Option (List String)) (lk : LinkVal)
    (dt : List DateRec) (s' : State) (t : State) (iid : Nat)
    (p : InstancePayload) (t' : State)
    (hA : agentUpdate s aid sc al lk dt = .ok s')
    (hI : instanceUpdate sim t iid p = .ok t') :
    s'.agents = s.agents.map (fun r => if r.id = aid then applyAgentScalars r sc else r) ∧
    t'.instances = t.instances.map (fun r => if r.id = iid then applyInstScalars r p else r) ∧
    (∀ (cur : Option String) (v : String), pyStrip v ≠ "" → ovNonEmpty cur (some v) = some v) ∧
    (∀ (cur : Option String) (v : String), pyStrip v = "" → ovNonEmpty cur (some v) = cur) ∧
    (∀ cur : Option String, ovNonEmpty cur none = cur) ∧
    (∀ (cur : Option String) (v : String), ovNonNull cur (some v) = some v) ∧
    (∀ cur : Option String, ovNonNull cur none = cur) := by
  refine ⟨agentUpdate_ok_agents hA, ?_, ?_, ?_, fun cur => rfl, fun cur v => rfl, fun cur => rfl⟩
  · simp only [instanceUpdate] at hI
    split at hI
    · simp at hI
    · next s3 heq =>
      cases hI
      rw [instTail_instances, (addAgents_frame heq).1, instHead_instances]
  · intro cur v hv
    simp [ovNonEmpty, hv]
  · intro cur v hv
    simp [ovNonEmpty, hv]

/-- Counterexample to claim C1 as stated: merging an instance whose stored
title is Old with a payload carrying an empty-string title overwrites the
stored title with the empty string instead of leaving it unchanged. -/
theorem claim1Counterexample :
    cex1State.instances = [{ id := 0, title := some ("Old") }] ∧
    cex1Payload.title = some ("") ∧
    isOk (instanceUpdate simEq cex1State 0 cex1Payload) = true ∧
    (okState (instanceUpdate simEq cex1State 0 cex1Payload)).instances =
      [{ id := 0, title := some ("") }] := by decide

/-- Witness for claim C1 at concrete inputs. -/
theorem claim1Witness :
    (okState (agentUpdate wit1AgState 0 wit1Sc (some []) (LinkVal.many []) [])).agents =
      wit1AgState.agents.map (fun r => if r.id = 0 then applyAgentScalars r wit1Sc else r) ∧
    (okState (instanceUpdate simEq cex1State 0 cex1Payload)).instances =
      cex1State.instances.map (fun r => if r.id = 0 then applyInstScalars r cex1Payload else r) := by
  have h := claim1ScalarOverwrite simEq wit1AgState 0 wit1Sc (some []) (LinkVal.many []) []
    (okState (agentUpdate wit1AgState 0 wit1Sc (some []) (LinkVal.many []) []))
    cex1State 0 cex1Payload (okState (instanceUpdate simEq cex1State 0 cex1Payload))
    (by decide) (by decide)
  exact ⟨h.1, h.2.1⟩

/-! ## Claim C4: delegation of the work-owned fields -/

theorem instHead_workCalls_some {s : State} {iid : Nat} {p : InstancePayload}
    {row : InstanceRow} {wid : Nat}
    (hrow : s.instances.find? (fun r => r.id == iid) = some row)
    (hwid : row.work_id = some wid) :
    (instHead s iid p).workCalls = s.workCalls ++
      [(wid, WorkCall.updateFields p.series p.series_position),
       (wid, WorkCall.importSubjects p.subjects)] := by
  simp [instHead, hrow, hwid]

theorem instanceUpdate_workCalls {sim : String → String → ℚ} {s : State}
    {iid : Nat} {p : InstancePayload} {s' : State} {row : InstanceRow} {wid : Nat}
    (hrow : s.instances.find? (fun r => r.id == iid) = some row)
    (hwid : row.work_id = some wid)
    (h : instanceUpdate sim s iid p = .ok s') :
    s'.workCalls = s.workCalls ++
      [(wid, WorkCall.updateFields p.series p.series_position),
       (wid, WorkCall.importSubjects p.subjects)] := by
  simp only [instanceUpdate] at h
  split at h
  · simp at h
  · next s3 heq =>
    cases h
    rw [(instTail_agentSide s3 iid p).2.2.2.2.2.2, (addAgents_frame heq).workCalls_eq,
      instHead_workCalls_some hrow hwid]

theorem instInsertTail_workCalls (s : State) (iid : Nat) (p : InstancePayload) :
    (instInsertTail s iid p).workCalls = s.workCalls := by
  simp [instInsertTail, addIdentifiers, addItems, addAltTitles, addLanguages_eq]

theorem find?_map_setId {l : List InstanceRow} {eid : Nat} {row : InstanceRow}
    (g : InstanceRow → InstanceRow) (hid : ∀ r, (g r).id = r.id)
    (h : l.find? (fun r => r.id == eid) = some row) :
    (l.map (fun r => if r.id = eid then g r else r)).find? (fun r => r.id == eid) =
      some (if row.id = eid then g row else row) := by
  induction l with
  | nil => simp at h
  | cons a as ih =>
    by_cases ha : a.id = eid
    · rw [List.find?_cons_of_pos _ (by simp [ha])] at h
      cases h
      simp only [List.map_cons]
      rw [List.find?_cons_of_pos _ (by simp [ha, hid])]
    · rw [List.find?_cons_of_neg _ (by simp [ha])] at h
      simp only [List.map_cons, if_neg ha]
      rw [List.find?_cons_of_neg _ (by simp [ha])]
      exact ih h

/-- Claim C4 as amended: on the update path the work-owned fields `series`,
`series_position` and `subjects` are popped and delegated to the linked
parent Work, and a caller-supplied work is linked before field merging so the
delegation still occurs; on the insert path the fields are likewise popped —
never set as instance attributes — but they are discarded without any Work
delegation. -/
theorem claim4WorkDelegation (sim : String → String → ℚ) (s : State)
    (iid wid : Nat) (row : InstanceRow) (p : InstancePayload) (s' : State)
    (hrow : s.instances.find? (fun r => r.id == iid) = some row)
    (hwid : row.work_id = some wid)
    (hok : instanceUpdate sim s iid p = .ok s') :
    s'.workCalls = s.workCalls ++
      [(wid, WorkCall.updateFields p.series p.series_position),
       (wid, WorkCall.importSubjects p.subjects)] ∧
    (∀ (t t2 : State) (nid : Nat), instanceInsert sim t p = .ok (t2, nid) →
      t2.workCalls = t.workCalls) ∧
    (∀ (t : State) (q : InstancePayload) (w eid : Nat) (qrow : InstanceRow)
      (t' : State) (tag : String),
      lookupInstance t q.identifiers q.volume = some eid →
      t.instances.find? (fun r => r.id == eid) = some qrow →
      qrow.work_id = none →
      instanceUpdateOrInsert sim t q (some w) = .ok (t', eid, tag) →
      t'.workCalls = t.workCalls ++
        [(w, WorkCall.updateFields q.series q.series_position),
         (w, WorkCall.importSubjects q.subjects)]) := by
  refine ⟨instanceUpdate_workCalls hrow hwid hok, ?_, ?_⟩
  · intro t t2 nid h
    simp only [instanceInsert] at h
    split at h
    · simp at h
    · next s2 heq =>
      cases h
      rw [instInsertTail_workCalls, (addAgents_frame heq).workCalls_eq]
      rfl
  · intro t q w eid qrow t' tag hlk hfind hnone hoi
    have hqid : qrow.id = eid := by
      have := List.find?_some hfind
      simpa using this
    simp only [instanceUpdateOrInsert, hlk, hfind] at hoi
    rw [if_pos ⟨hnone, by simp⟩] at hoi
    split at hoi
    · simp at hoi
    · next t2 heq =>
      cases hoi
      have hfind2 : (setWork t eid (some w)).instances.find? (fun r => r.id == eid) =
          some { qrow with work_id := some w } := by
        have := find?_map_setId (fun r => { r with work_id := some w }) (fun r => rfl) hfind
        rw [if_pos hqid] at this
        exact this
      have := instanceUpdate_workCalls (p := q) hfind2 rfl heq
      rw [this]
      rfl

/-- Counterexample to claim C4 as stated: the insert entry point extracts the
work-owned fields but performs no Work delegation at all — an inserted
instance payload carrying series and subjects produces an empty delegation
log. -/
theorem claim4Counterexample :
    isOk (instanceUpdateOrInsert simEq ({} : State) cex4Payload (some 9)) = true ∧
    outTag3 (instanceUpdateOrInsert simEq ({} : State) cex4Payload (some 9)) = "inserted" ∧
    (outState3 (instanceUpdateOrInsert simEq ({} : State) cex4Payload (some 9))).workCalls = [] ∧
    cex4Payload.series = some ("S") ∧ cex4Payload.subjects = [("x")] := by decide

/-- Witness for claim C4 at a concrete update-path input. -/
theorem claim4Witness :
    (okState (instanceUpdate simEq wit4State 0 wit4Payload)).workCalls =
      wit4State.workCalls ++
        [(4, WorkCall.updateFields wit4Payload.series wit4Payload.series_position),
         (4, WorkCall.importSubjects wit4Payload.subjects)] := by
  have h := claim4WorkDelegation simEq wit4State 0 4 { id := 0, work_id := some 4 }
    wit4Payload (okState (instanceUpdate simEq wit4State 0 wit4Payload))
    (by decide) (by decide) (by decide)
  exact h.1

/-! ## Claim C9: the empty-name validation error -/

theorem str_len_lt_one_iff (t : String) : t.length < 1 ↔ t = "" := by
  constructor
  · intro h
    cases t with
    | mk l =>
      have h0 : l.length = 0 := by simpa [String.length] using h
      have h1 : l = [] := List.length_eq_zero.mp h0
      subst h1
      rfl
  · intro h
    subst h
    decide

theorem aliasInsertOrSkip_ne_dataError (rows : List (Nat × String)) (aid : Nat)
    (a : String) : aliasInsertOrSkip rows aid a ≠ .err .dataError := by
  simp only [aliasInsertOrSkip]
  split <;> simp

theorem aliasRecs_ne_dataError (rows : List (Nat × String)) (aid : Nat) :
    ∀ l : List String, aliasRecs rows aid l ≠ .err .dataError := by
  intro l
  induction l with
  | nil => simp [aliasRecs]
  | cons a rest ih =>
    simp only [aliasRecs]
    split
    · next e heq =>
      intro hc
      injection hc with h2
      subst h2
      exact aliasInsertOrSkip_ne_dataError rows aid a heq
    · split
      · next e heq2 =>
        intro hc
        injection hc with h2
        subst h2
        exact ih heq2
      · simp

theorem agentUpdate_ne_dataError (s : State) (aid : Nat) (sc : AgentScalars)
    (al : Option (List String)) (lk : LinkVal) (dt : List DateRec) :
    agentUpdate s aid sc al lk dt ≠ .err .dataError := by
  simp only [agentUpdate]
  split
  · simp
  · split
    · next e heq =>
      intro hc
      injection hc with h2
      subst h2
      exact aliasRecs_ne_dataError _ _ _ heq
    · simp

theorem lookupAgent_ne_dataError (sim : String → String → ℚ)
    (agents : List AgentRow) (p : AgentScalars) :
    lookupAgent sim agents p ≠ .err .dataError := by
  simp only [lookupAgent]
  split
  · split <;> simp
  · simp

/-- Claim C9: Agent.updateOrInsert raises the data-validation error exactly
when the cleaned name strips to the empty string, and Instance._addAgents
recovers from that error locally — the offending agent child is skipped and
the remaining children are processed unchanged. -/
theorem claim9EmptyNameError (sim : String → String → ℚ) (s : State)
    (p : AgentPayload) :
    (agentUpdateOrInsert sim s p = .err .dataError ↔
      pyStrip (String.mk (cleanChars p.name.data (p.roles.getD []) (p.dates.getD [])).1) = "") ∧
    (∀ (iid : Nat) (rest : List AgentPayload),
      agentUpdateOrInsert sim s p = .err .dataError →
      addAgents sim s iid (p :: rest) = addAgents sim s iid rest) := by
  constructor
  · constructor
    · intro h
      simp only [agentUpdateOrInsert] at h
      split at h
      · next hc => exact (str_len_lt_one_iff _).mp hc
      · exfalso
        split at h
        · next e heq =>
          injection h with h2
          subst h2
          exact lookupAgent_ne_dataError sim s.agents _ heq
        · split at h
          · next e heq2 =>
            injection h with h2
            subst h2
            exact agentUpdate_ne_dataError _ _ _ _ _ _ heq2
          · simp at h
        · simp at h
    · intro h
      simp only [agentUpdateOrInsert]
      rw [if_pos ((str_len_lt_one_iff _).mpr h)]
  · intro iid rest h
    simp only [addAgents, h]

/-- Witness for claim C9: a name that cleans to the empty string raises the
data error and is skipped by Instance._addAgents while the rest of the event
continues. -/
theorem claim9Witness :
    agentUpdateOrInsert simEq bug3State wit9Bad = .err .dataError ∧
    addAgents simEq bug3State 0 [wit9Bad, wit9Good] =
      addAgents simEq bug3State 0 [wit9Good] := by
  have h := claim9EmptyNameError simEq bug3State wit9Bad
  have h1 : agentUpdateOrInsert simEq bug3State wit9Bad = .err .dataError :=
    h.1.mpr (by decide)
  exact ⟨h1, h.2 0 [wit9Good] h1⟩

/-! ## Claim C7: lifespan extraction in name cleaning -/

theorem digit_ne_quote {c : Char} (h : c.isDigit = true) : c ≠ quoteChar := by
  intro heq
  subst heq
  exact absurd h (by decide)

theorem ne_of_digit_mismatch {c d : Char} (hc : c.isDigit = false)
    (hd : d.isDigit = true) : c ≠ d := by
  intro heq
  subst heq
  rw [hc] at hd
  exact Bool.false_ne_true hd

theorem escQuotes_of_no_quote : ∀ (l : List Char),
    (∀ c ∈ l, c ≠ quoteChar) → escQuotes l = l := by
  intro l
  induction l with
  | nil => intro _; rfl
  | cons c cs ih =>
    intro h
    rw [escQuotes, if_neg (h c (List.mem_cons_self c cs)),
      ih (fun x hx => h x (List.mem_cons_of_mem c hx))]

theorem fullBracket_false_of_head {c : Char} (t : List Char) (hc : c ≠ '[') :
    fullBracket (c :: t) = false := by
  simp [fullBracket, hc]

theorem lifeAt_none_of_head {c : Char} (t : List Char) (hc : c.isDigit = false) :
    lifeAt (c :: t) = none := by
  rcases t with _ | ⟨b, _ | ⟨d, _ | ⟨e, _ | ⟨f, rest⟩⟩⟩⟩ <;> simp [lifeAt, hc]

theorem searchLife_append : ∀ (x r : List Char),
    (∀ c ∈ x, c.isDigit = false) → searchLife (x ++ r) = searchLife r := by
  intro x
  induction x with
  | nil => intro r _; rfl
  | cons c cs ih =>
    intro r h
    rw [List.cons_append, searchLife,
      lifeAt_none_of_head _ (h c (List.mem_cons_self c cs)),
      ih r (fun y hy => h y (List.mem_cons_of_mem c hy))]

theorem length_eq_four : ∀ (l : List Char), l.length = 4 →
    ∃ a b c d, l = [a, b, c, d]
  | [a, b, c, d], _ => ⟨a, b, c, d, rfl⟩
  | [], h => absurd h (by decide)
  | [a], h => absurd h (by simp)
  | [a, b], h => absurd h (by simp)
  | [a, b, c], h => absurd h (by simp)
  | a :: b :: c :: d :: e :: t, h => absurd h (by simp)

theorem lifeAt_both {a1 a2 a3 a4 b1 b2 b3 b4 : Char} (r : List Char)
    (h1 : a1.isDigit = true) (h2 : a2.isDigit = true) (h3 : a3.isDigit = true)
    (h4 : a4.isDigit = true) (h5 : b1.isDigit = true) (h6 : b2.isDigit = true)
    (h7 : b3.isDigit = true) (h8 : b4.isDigit = true) :
    lifeAt (a1 :: a2 :: a3 :: a4 :: '-' :: b1 :: b2 :: b3 :: b4 :: r) =
      some ([a1, a2, a3, a4], some [b1, b2, b3, b4]) := by
  simp [lifeAt, h1, h2, h3, h4, h5, h6, h7, h8]

theorem lifeAt_birth_only {a1 a2 a3 a4 : Char}
    (h1 : a1.isDigit = true) (h2 : a2.isDigit = true) (h3 : a3.isDigit = true)
    (h4 : a4.isDigit = true) :
    lifeAt (a1 :: a2 :: a3 :: a4 :: '-' :: ']' :: []) =
      some ([a1, a2, a3, a4], none) := by
  simp [lifeAt, h1, h2, h3, h4]

theorem isPrefixOf_append_self : ∀ (l r : List Char), l.isPrefixOf (l ++ r) = true := by
  intro l r
  induction l with
  | nil => simp [List.isPrefixOf]
  | cons c cs ih => simp [List.isPrefixOf, ih]

theorem replaceAll_cons_no_match {pc : Char} (pt : List Char) {c : Char}
    (cs : List Char) (hne : c ≠ pc) :
    replaceAll (pc :: pt) (c :: cs) = c :: replaceAll (pc :: pt) cs := by
  rw [replaceAll, if_neg]
  rintro ⟨-, hp⟩
  simp only [List.isPrefixOf] at hp
  rw [Bool.and_eq_true, beq_iff_eq] at hp
  exact hne hp.1.symm

theorem replaceAll_append_front : ∀ (x : List Char) {pc : Char} (pt r : List Char),
    (∀ c ∈ x, c ≠ pc) →
    replaceAll (pc :: pt) (x ++ r) = x ++ replaceAll (pc :: pt) r := by
  intro x
  induction x with
  | nil => intro pc pt r _; rfl
  | cons c cs ih =>
    intro pc pt r h
    rw [List.cons_append,
      replaceAll_cons_no_match pt _ (h c (List.mem_cons_self c cs)),
      ih pt r (fun y hy => h y (List.mem_cons_of_mem c hy)), List.cons_append]

theorem replaceAll_head_match (pc : Char) (pt r : List Char) :
    replaceAll (pc :: pt) ((pc :: pt) ++ r) = replaceAll (pc :: pt) r := by
  rw [List.cons_append, replaceAll, if_pos]
  · rw [show pc :: (pt ++ r) = (pc :: pt) ++ r from rfl, List.drop_left]
  · exact ⟨by simp, isPrefixOf_append_self (pc :: pt) r⟩

theorem roleAt_none_of_ne {c : Char} (t : List Char) (hc : c ≠ '[') :
    roleAt (c :: t) = none := by
  simp [roleAt, hc]

theorem searchRole_append : ∀ (x r : List Char),
    (∀ c ∈ x, c ≠ '[') → searchRole (x ++ r) = searchRole r := by
  intro x
  induction x with
  | nil => intro r _; rfl
  | cons c cs ih =>
    intro r h
    rw [List.cons_append, searchRole,
      roleAt_none_of_ne _ (h c (List.mem_cons_self c cs)),
      ih r (fun y hy => h y (List.mem_cons_of_mem c hy))]

theorem dropWhile_append_all {p : Char → Bool} : ∀ (a b : List Char),
    (∀ c ∈ a, p c = true) → (a ++ b).dropWhile p = b.dropWhile p := by
  intro a
  induction a with
  | nil => intro b _; rfl
  | cons c cs ih =>
    intro b h
    rw [List.cons_append, List.dropWhile_cons_of_pos (h c (List.mem_cons_self c cs)),
      ih b (fun y hy => h y (List.mem_cons_of_mem c hy))]

theorem dropWhile_append_nonempty {p : Char → Bool} : ∀ (a b : List Char),
    a.dropWhile p ≠ [] → (a ++ b).dropWhile p = a.dropWhile p ++ b := by
  intro a
  induction a with
  | nil => intro b h; exact absurd rfl h
  | cons c cs ih =>
    intro b h
    by_cases hp : p c = true
    · rw [List.dropWhile_cons_of_pos hp] at h
      rw [List.cons_append, List.dropWhile_cons_of_pos hp, ih b h,
        List.dropWhile_cons_of_pos hp]
    · have hp' : p c = false := by simpa using hp
      rw [List.cons_append, List.dropWhile_cons_of_neg (by simp [hp']),
        List.dropWhile_cons_of_neg (by simp [hp']), List.cons_append]

theorem stripJunk_append_junk (x t : List Char)
    (ht : ∀ c ∈ t, junkChar c = true) :
    stripJunk (x ++ t) = stripJunk x := by
  unfold stripJunk
  by_cases hx : x.dropWhile junkChar = []
  · have hallx : ∀ c ∈ x, junkChar c = true := List.dropWhile_eq_nil_iff.mp hx
    rw [dropWhile_append_all x t hallx, hx, List.dropWhile_eq_nil_iff.mpr ht]
  · rw [dropWhile_append_nonempty x t hx, List.reverse_append,
      dropWhile_append_all t.reverse _ (fun c hc => ht c (List.mem_reverse.mp hc))]

theorem cleanChars_lifespan_both (c0 : Char) (s' : List Char)
    (a1 a2 a3 a4 b1 b2 b3 b4 : Char) (roles : List String) (dates : List DateRec)
    (hnd : ∀ c ∈ c0 :: s', c.isDigit = false)
    (hlb : ∀ c ∈ c0 :: s', c ≠ '[')
    (hnq : ∀ c ∈ c0 :: s', c ≠ quoteChar)
    (d1 : a1.isDigit = true) (d2 : a2.isDigit = true) (d3 : a3.isDigit = true)
    (d4 : a4.isDigit = true) (d5 : b1.isDigit = true) (d6 : b2.isDigit = true)
    (d7 : b3.isDigit = true) (d8 : b4.isDigit = true) :
    cleanChars ((c0 :: s') ++
        (' ' :: '[' :: (a1 :: a2 :: a3 :: a4 :: '-' :: b1 :: b2 :: b3 :: b4 :: [']'])))
      roles dates =
      (stripJunk (c0 :: s'), roles,
        dates ++ [⟨String.mk [a1, a2, a3, a4], String.mk [a1, a2, a3, a4], "birth_date"⟩,
          ⟨String.mk [b1, b2, b3, b4], String.mk [b1, b2, b3, b4], "death_date"⟩]) := by
  have hallq : ∀ c ∈ (c0 :: s') ++
      (' ' :: '[' :: (a1 :: a2 :: a3 :: a4 :: '-' :: b1 :: b2 :: b3 :: b4 :: [']'])),
      c ≠ quoteChar := by
    intro c hc
    rcases List.mem_append.mp hc with h | h
    · exact hnq c h
    · rcases List.mem_cons.mp h with rfl | h
      · decide
      rcases List.mem_cons.mp h with rfl | h
      · decide
      rcases List.mem_cons.mp h with rfl | h
      · exact digit_ne_quote d1
      rcases List.mem_cons.mp h with rfl | h
      · exact digit_ne_quote d2
      rcases List.mem_cons.mp h with rfl | h
      · exact digit_ne_quote d3
      rcases List.mem_cons.mp h with rfl | h
      · exact digit_ne_quote d4
      rcases List.mem_cons.mp h with rfl | h
      · decide
      rcases List.mem_cons.mp h with rfl | h
      · exact digit_ne_quote d5
      rcases List.mem_cons.mp h with rfl | h
      · exact digit_ne_quote d6
      rcases List.mem_cons.mp h with rfl | h
      · exact digit_ne_quote d7
      rcases List.mem_cons.mp h with rfl | h
      · exact digit_ne_quote d8
      have := List.mem_singleton.mp h
      subst this
      decide
  have hnd2 : ∀ c ∈ (c0 :: s') ++ [' ', '['], c.isDigit = false := by
    intro c hc
    rcases List.mem_append.mp hc with h | h
    · exact hnd c h
    · rcases List.mem_cons.mp h with rfl | h
      · decide
      have := List.mem_singleton.mp h
      subst this
      decide
  have hsl : searchLife ((c0 :: s') ++
      (' ' :: '[' :: (a1 :: a2 :: a3 :: a4 :: '-' :: b1 :: b2 :: b3 :: b4 :: [']']))) =
      some ([a1, a2, a3, a4], some [b1, b2, b3, b4]) := by
    have hshape : (c0 :: s') ++
        (' ' :: '[' :: (a1 :: a2 :: a3 :: a4 :: '-' :: b1 :: b2 :: b3 :: b4 :: [']'])) =
        ((c0 :: s') ++ [' ', '[']) ++
          (a1 :: a2 :: a3 :: a4 :: '-' :: b1 :: b2 :: b3 :: b4 :: [']']) := by
      simp
    rw [hshape, searchLife_append _ _ hnd2, searchLife,
      lifeAt_both _ d1 d2 d3 d4 d5 d6 d7 d8]
  have hrep : replaceAll (a1 :: a2 :: a3 :: a4 :: '-' :: [b1, b2, b3, b4])
      ((c0 :: s') ++
        (' ' :: '[' :: (a1 :: a2 :: a3 :: a4 :: '-' :: b1 :: b2 :: b3 :: b4 :: [']']))) =
      (c0 :: s') ++ [' ', '[', ']'] := by
    have hshape : (c0 :: s') ++
        (' ' :: '[' :: (a1 :: a2 :: a3 :: a4 :: '-' :: b1 :: b2 :: b3 :: b4 :: [']'])) =
        ((c0 :: s') ++ [' ', '[']) ++
          ((a1 :: a2 :: a3 :: a4 :: '-' :: [b1, b2, b3, b4]) ++ [']']) := by
      simp
    rw [hshape,
      replaceAll_append_front _ _ _ (fun c hc => ne_of_digit_mismatch (hnd2 c hc) d1),
      replaceAll_head_match,
      replaceAll_cons_no_match _ _ (by exact ne_of_digit_mismatch (by decide) d1)]
    simp [replaceAll]
  have hsr : searchRole ((c0 :: s') ++ [' ', '[', ']']) = none := by
    rw [searchRole_append _ _ hlb]
    decide
  have hfb : fullBracket ((c0 :: s') ++
      (' ' :: '[' :: (a1 :: a2 :: a3 :: a4 :: '-' :: b1 :: b2 :: b3 :: b4 :: [']']))) =
      false :=
    fullBracket_false_of_head _ (hlb c0 (List.mem_cons_self c0 s'))
  have hesc := escQuotes_of_no_quote _ hallq
  have hstrip := stripJunk_append_junk (c0 :: s') [' ', '[', ']'] (by decide)
  simp only [List.cons_append] at hesc hsl hrep hsr hfb hstrip ⊢
  simp only [cleanChars, hesc, hfb, Bool.false_eq_true, if_false, hsl]
  simp only [List.cons_append, List.nil_append]
  rw [hrep]
  rw [roleStage, hsr, hstrip]
  simp

theorem cleanChars_lifespan_birth (c0 : Char) (s' : List Char)
    (a1 a2 a3 a4 : Char) (roles : List String) (dates : List DateRec)
    (hnd : ∀ c ∈ c0 :: s', c.isDigit = false)
    (hlb : ∀ c ∈ c0 :: s', c ≠ '[')
    (hnq : ∀ c ∈ c0 :: s', c ≠ quoteChar)
    (d1 : a1.isDigit = true) (d2 : a2.isDigit = true) (d3 : a3.isDigit = true)
    (d4 : a4.isDigit = true) :
    cleanChars ((c0 :: s') ++ (' ' :: '[' :: (a1 :: a2 :: a3 :: a4 :: ['-', ']'])))
      roles dates =
      (stripJunk (c0 :: s'), roles,
        dates ++ [⟨String.mk [a1, a2, a3, a4], String.mk [a1, a2, a3, a4], "birth_date"⟩]) := by
  have hallq : ∀ c ∈ (c0 :: s') ++ (' ' :: '[' :: (a1 :: a2 :: a3 :: a4 :: ['-', ']'])),
      c ≠ quoteChar := by
    intro c hc
    rcases List.mem_append.mp hc with h | h
    · exact hnq c h
    · rcases List.mem_cons.mp h with rfl | h
      · decide
      rcases List.mem_cons.mp h with rfl | h
      · decide
      rcases List.mem_cons.mp h with rfl | h
      · exact digit_ne_quote d1
      rcases List.mem_cons.mp h with rfl | h
      · exact digit_ne_quote d2
      rcases List.mem_cons.mp h with rfl | h
      · exact digit_ne_quote d3
      rcases List.mem_cons.mp h with rfl | h
      · exact digit_ne_quote d4
      rcases List.mem_cons.mp h with rfl | h
      · decide
      have := List.mem_singleton.mp h
      subst this
      decide
  have hnd2 : ∀ c ∈ (c0 :: s') ++ [' ', '['], c.isDigit = false := by
    intro c hc
    rcases List.mem_append.mp hc with h | h
    · exact hnd c h
    · rcases List.mem_cons.mp h with rfl | h
      · decide
      have := List.mem_singleton.mp h
      subst this
      decide
  have hsl : searchLife ((c0 :: s') ++ (' ' :: '[' :: (a1 :: a2 :: a3 :: a4 :: ['-', ']']))) =
      some ([a1, a2, a3, a4], none) := by
    have hshape : (c0 :: s') ++ (' ' :: '[' :: (a1 :: a2 :: a3 :: a4 :: ['-', ']'])) =
        ((c0 :: s') ++ [' ', '[']) ++ (a1 :: a2 :: a3 :: a4 :: '-' :: ']' :: []) := by
      simp
    rw [hshape, searchLife_append _ _ hnd2, searchLife, lifeAt_birth_only d1 d2 d3 d4]
  have hrep : replaceAll (a1 :: a2 :: a3 :: a4 :: ['-'])
      ((c0 :: s') ++ (' ' :: '[' :: (a1 :: a2 :: a3 :: a4 :: ['-', ']']))) =
      (c0 :: s') ++ [' ', '[', ']'] := by
    have hshape : (c0 :: s') ++ (' ' :: '[' :: (a1 :: a2 :: a3 :: a4 :: ['-', ']'])) =
        ((c0 :: s') ++ [' ', '[']) ++ ((a1 :: a2 :: a3 :: a4 :: ['-']) ++ [']']) := by
      simp
    rw [hshape,
      replaceAll_append_front _ _ _ (fun c hc => ne_of_digit_mismatch (hnd2 c hc) d1),
      replaceAll_head_match,
      replaceAll_cons_no_match _ _ (by exact ne_of_digit_mismatch (by decide) d1)]
    simp [replaceAll]
  have hsr : searchRole ((c0 :: s') ++ [' ', '[', ']']) = none := by
    rw [searchRole_append _ _ hlb]
    decide
  have hfb : fullBracket ((c0 :: s') ++ (' ' :: '[' :: (a1 :: a2 :: a3 :: a4 :: ['-', ']']))) =
      false :=
    fullBracket_false_of_head _ (hlb c0 (List.mem_cons_self c0 s'))
  have hesc := escQuotes_of_no_quote _ hallq
  have hstrip := stripJunk_append_junk (c0 :: s') [' ', '[', ']'] (by decide)
  simp only [List.cons_append] at hesc hsl hrep hsr hfb hstrip ⊢
  simp only [cleanChars, hesc, hfb, Bool.false_eq_true, if_false, hsl]
  simp only [List.cons_append, List.nil_append]
  rw [hrep]
  rw [roleStage, hsr, hstrip]
  simp

/-- Claim C7: for every raw agent name of shape name-space-bracket-year-
hyphen-year-bracket, cleaning removes the matched lifespan span from the name
and appends exactly one birth_date and one death_date record whose display
and range both equal the respective year; with the second year absent only
the birth_date record is appended.  The roles collection is untouched. -/
theorem claim7LifespanParsing (s y1 y2 : List Char) (roles : List String)
    (dates : List DateRec)
    (hs : s ≠ [])
    (hnd : ∀ c ∈ s, c.isDigit = false)
    (hlb : ∀ c ∈ s, c ≠ '[')
    (hnq : ∀ c ∈ s, c ≠ quoteChar)
    (hy1 : y1.length = 4) (hy1d : ∀ c ∈ y1, c.isDigit = true)
    (hy2 : y2.length = 4) (hy2d : ∀ c ∈ y2, c.isDigit = true) :
    cleanChars (s ++ (' ' :: '[' :: (y1 ++ ('-' :: (y2 ++ [']']))))) roles dates =
      (stripJunk s, roles,
        dates ++ [⟨String.mk y1, String.mk y1, "birth_date"⟩,
          ⟨String.mk y2, String.mk y2, "death_date"⟩]) ∧
    cleanChars (s ++ (' ' :: '[' :: (y1 ++ ['-', ']']))) roles dates =
      (stripJunk s, roles, dates ++ [⟨String.mk y1, String.mk y1, "birth_date"⟩]) := by
  obtain ⟨a1, a2, a3, a4, hy1e⟩ := length_eq_four y1 hy1
  obtain ⟨b1, b2, b3, b4, hy2e⟩ := length_eq_four y2 hy2
  subst hy1e
  subst hy2e
  rcases s with _ | ⟨c0, s'⟩
  · exact absurd rfl hs
  constructor
  · have := cleanChars_lifespan_both c0 s' a1 a2 a3 a4 b1 b2 b3 b4 roles dates
      hnd hlb hnq
      (hy1d a1 (by simp)) (hy1d a2 (by simp)) (hy1d a3 (by simp)) (hy1d a4 (by simp))
      (hy2d b1 (by simp)) (hy2d b2 (by simp)) (hy2d b3 (by simp)) (hy2d b4 (by simp))
    simpa using this
  · have := cleanChars_lifespan_birth c0 s' a1 a2 a3 a4 roles dates
      hnd hlb hnq
      (hy1d a1 (by simp)) (hy1d a2 (by simp)) (hy1d a3 (by simp)) (hy1d a4 (by simp))
    simpa using this

/-- Witness for claim C7 at the spec's scenario: the name Smith, John with
lifespan 1920 to 1995 cleans to Smith, John with exactly the two date
records, and with an open-ended lifespan only the birth record. -/
theorem claim7Witness :
    cleanChars (("Smith, John").data ++
        (' ' :: '[' :: (("1920").data ++ ('-' :: (("1995").data ++ [']']))))) [] [] =
      (stripJunk (("Smith, John").data), [],
        [⟨String.mk (("1920").data), String.mk (("1920").data), "birth_date"⟩,
         ⟨String.mk (("1995").data), String.mk (("1995").data), "death_date"⟩]) ∧
    cleanChars (("Smith, John").data ++ (' ' :: '[' :: (("1920").data ++ ['-', ']']))) [] [] =
      (stripJunk (("Smith, John").data), [],
        [⟨String.mk (("1920").data), String.mk (("1920").data), "birth_date"⟩]) := by
  have h := claim7LifespanParsing (("Smith, John").data) (("1920").data) (("1995").data)
    [] [] (by decide) (by decide) (by decide) (by decide) (by decide) (by decide)
    (by decide) (by decide)
  exact ⟨h.1, h.2⟩

/-! ## Claim C6: no duplicate relationship rows -/

theorem guardedFold_nodup {α : Type} [DecidableEq α] (owner : Nat) :
    ∀ (xs : List α) (bound : List (Nat × α)), bound.Nodup →
    (guardedFold bound owner xs).Nodup := by
  intro xs
  induction xs with
  | nil => intro bound h; exact h
  | cons x rest ih =>
    intro bound h
    rw [guardedFold]
    by_cases hm : (owner, x) ∈ bound
    · rw [if_pos hm]
      exact ih bound h
    · rw [if_neg hm]
      refine ih _ ?_
      simp [List.nodup_append, h, hm]

theorem guardedFold_pred {α : Type} [DecidableEq α] (owner : Nat)
    (P : Nat × α → Prop) (hP : ∀ x, P (owner, x)) :
    ∀ (xs : List α) (bound : List (Nat × α)), (∀ pr ∈ bound, P pr) →
    ∀ pr ∈ guardedFold bound owner xs, P pr := by
  intro xs
  induction xs with
  | nil => intro bound h; exact h
  | cons x rest ih =>
    intro bound h
    rw [guardedFold]
    by_cases hm : (owner, x) ∈ bound
    · rw [if_pos hm]
      exact ih bound h
    · rw [if_neg hm]
      refine ih _ ?_
      intro pr hpr
      rcases List.mem_append.mp hpr with hpr | hpr
      · exact h pr hpr
      · rw [List.mem_singleton.mp hpr]
        exact hP x

theorem rolesAcc_nodup (aid iid : Nat) :
    ∀ (roles : List String) (rows : List (Nat × Nat × String)), rows.Nodup →
    (rolesAcc rows aid iid roles).Nodup := by
  intro roles
  induction roles with
  | nil => intro rows h; exact h
  | cons role rest ih =>
    intro rows h
    rw [rolesAcc]
    by_cases hm : (aid, iid, role) ∈ rows
    · rw [if_pos (by simpa [roleExists] using hm)]
      exact ih rows h
    · rw [if_neg (by simpa [roleExists] using hm)]
      refine ih _ ?_
      simp [List.nodup_append, h, hm]

theorem rolesAcc_pred (aid iid : Nat) (P : Nat × Nat × String → Prop)
    (hP : ∀ role, P (aid, iid, role)) :
    ∀ (roles : List String) (rows : List (Nat × Nat × String)),
    (∀ tr ∈ rows, P tr) → ∀ tr ∈ rolesAcc rows aid iid roles, P tr := by
  intro roles
  induction roles with
  | nil => intro rows h; exact h
  | cons role rest ih =>
    intro rows h
    rw [rolesAcc]
    by_cases hm : (aid, iid, role) ∈ rows
    · rw [if_pos (by simpa [roleExists] using hm)]
      exact ih rows h
    · rw [if_neg (by simpa [roleExists] using hm)]
      refine ih _ ?_
      intro tr htr
      rcases List.mem_append.mp htr with htr | htr
      · exact h tr htr
      · rw [List.mem_singleton.mp htr]
        exact hP role

theorem identAcc_inv (iid : Nat) :
    ∀ (idens global : List String) (rel : List (Nat × String)),
    rel.Nodup → (∀ pr ∈ rel, pr.2 ∈ global) →
    (identAcc global rel iid idens).2.Nodup ∧
    (∀ pr ∈ (identAcc global rel iid idens).2, pr.2 ∈ (identAcc global rel iid idens).1) := by
  intro idens
  induction idens with
  | nil => intro global rel hn hc; exact ⟨hn, hc⟩
  | cons v rest ih =>
    intro global rel hn hc
    rw [identAcc]
    by_cases hg : v ∈ global
    · rw [if_pos hg]
      by_cases hr : (iid, v) ∈ rel
      · rw [if_pos hr]
        exact ih global rel hn hc
      · rw [if_neg hr]
        refine ih global _ ?_ ?_
        · simp [List.nodup_append, hn, hr]
        · intro pr hpr
          rcases List.mem_append.mp hpr with hpr | hpr
          · exact hc pr hpr
          · rw [List.mem_singleton.mp hpr]
            exact hg
    · rw [if_neg hg]
      have hr : (iid, v) ∉ rel := fun hmem => hg (hc _ hmem)
      refine ih _ _ ?_ ?_
      · simp [List.nodup_append, hn, hr]
      · intro pr hpr
        rcases List.mem_append.mp hpr with hpr | hpr
        · exact List.mem_append_left _ (hc pr hpr)
        · rw [List.mem_singleton.mp hpr]
          exact List.mem_append_right _ (List.mem_singleton_self v)

theorem escQuotes_injective : ∀ (x y : List Char),
    escQuotes x = escQuotes y → x = y := by
  intro x
  induction x with
  | nil =>
    intro y h
    cases y with
    | nil => rfl
    | cons d ds =>
      simp only [escQuotes] at h
      split at h <;> simp at h
  | cons c cs ih =>
    intro y h
    cases y with
    | nil =>
      simp only [escQuotes] at h
      split at h <;> simp at h
    | cons d ds =>
      simp only [escQuotes] at h
      by_cases hc : c = quoteChar <;> by_cases hd : d = quoteChar
      · rw [if_pos hc, if_pos hd] at h
        injection h with h1 h2
        injection h2 with h3 h4
        rw [hc, hd, ih ds h4]
      · rw [if_pos hc, if_neg hd] at h
        injection h with h1 h2
        exact absurd h1.symm hd
      · rw [if_neg hc, if_pos hd] at h
        injection h with h1 h2
        exact absurd h1 hc
      · rw [if_neg hc, if_neg hd] at h
        injection h with h1 h2
        rw [h1, ih ds h2]

theorem escStr_injective : Function.Injective escStr := by
  intro a b h
  cases a with
  | mk la =>
    cases b with
    | mk lb =>
      have hd : escQuotes la = escQuotes lb := congrArg String.data h
      rw [escQuotes_injective la lb hd]

theorem filter_eq_of_nodup {α : Type} [DecidableEq α] (x : α) :
    ∀ l : List α, l.Nodup →
    l.filter (fun y => y = x) = if x ∈ l then [x] else [] := by
  intro l
  induction l with
  | nil => intro _; simp
  | cons a as ih =>
    intro hnd
    obtain ⟨hna, hnd'⟩ := List.nodup_cons.mp hnd
    by_cases hax : a = x
    · subst hax
      rw [List.filter_cons_of_pos (by simp), ih hnd', if_neg hna,
        if_pos (List.mem_cons_self a as)]
    · rw [List.filter_cons_of_neg (by simp [hax]), ih hnd']
      by_cases hxm : x ∈ as
      · rw [if_pos hxm, if_pos (List.mem_cons_of_mem a hxm)]
      · rw [if_neg hxm,
          if_neg (by simp only [List.mem_cons, not_or]; exact ⟨fun h => hax h.symm, hxm⟩)]

theorem aliasInsertOrSkip_eq (rows : List (Nat × String)) (aid : Nat) (a : String)
    (hnd : rows.Nodup) :
    aliasInsertOrSkip rows aid a =
      .ok (if (aid, escStr a) ∈ rows then none else some (escStr a)) := by
  have hf := filter_eq_of_nodup ((aid, escStr a)) rows hnd
  by_cases hm : (aid, escStr a) ∈ rows
  · rw [if_pos hm] at hf
    simp [aliasInsertOrSkip, hf, hm]
  · rw [if_neg hm] at hf
    simp [aliasInsertOrSkip, hf, hm]

theorem aliasRecs_eq (rows : List (Nat × String)) (aid : Nat) (hnd : rows.Nodup) :
    ∀ as_ : List String, aliasRecs rows aid as_ =
      .ok (as_.map (fun a => if (aid, escStr a) ∈ rows then none else some (escStr a))) := by
  intro as_
  induction as_ with
  | nil => rfl
  | cons a rest ih =>
    rw [aliasRecs, aliasInsertOrSkip_eq rows aid a hnd, ih]
    rfl

theorem aliasNews_mem (rows : List (Nat × String)) (aid : Nat) :
    ∀ (as_ : List String) (pr : Nat × String),
    pr ∈ ((as_.map (fun a => if (aid, escStr a) ∈ rows then none
        else some (escStr a))).filterMap id).map (fun a => (aid, a)) →
    pr.1 = aid ∧ pr ∉ rows ∧ ∃ a ∈ as_, pr.2 = escStr a := by
  intro as_
  induction as_ with
  | nil => intro pr hpr; simp at hpr
  | cons a rest ih =>
    intro pr hpr
    by_cases hm : (aid, escStr a) ∈ rows
    · simp only [List.map_cons, if_pos hm, List.filterMap_cons, id_eq] at hpr
      obtain ⟨h1, h2, a', ha', h3⟩ := ih pr hpr
      exact ⟨h1, h2, a', List.mem_cons_of_mem a ha', h3⟩
    · simp only [List.map_cons, if_neg hm, List.filterMap_cons, id_eq] at hpr
      rcases List.mem_cons.mp hpr with rfl | hpr
      · exact ⟨rfl, hm, a, List.mem_cons_self a rest, rfl⟩
      · obtain ⟨h1, h2, a', ha', h3⟩ := ih pr hpr
        exact ⟨h1, h2, a', List.mem_cons_of_mem a ha', h3⟩

theorem aliasNews_nodup (rows : List (Nat × String)) (aid : Nat) :
    ∀ as_ : List String, as_.Nodup →
    (((as_.map (fun a => if (aid, escStr a) ∈ rows then none
        else some (escStr a))).filterMap id).map (fun a => (aid, a))).Nodup := by
  intro as_
  induction as_ with
  | nil => intro _; simp
  | cons a rest ih =>
    intro hnd
    by_cases hm : (aid, escStr a) ∈ rows
    · simp only [List.map_cons, if_pos hm, List.filterMap_cons, id_eq]
      exact ih (List.Nodup.of_cons hnd)
    · simp only [List.map_cons, if_neg hm, List.filterMap_cons, id_eq]
      refine List.Nodup.cons ?_ (ih (List.Nodup.of_cons hnd))
      intro hmem
      obtain ⟨-, -, a', ha', h3⟩ := aliasNews_mem rows aid rest (aid, escStr a) hmem
      have : a' = a := escStr_injective h3.symm
      subst this
      exact (List.nodup_cons.mp hnd).1 ha'

theorem pair_mk_injective {α : Type} (n : Nat) :
    Function.Injective (fun a : α => (n, a)) := by
  intro a b h
  injection h

theorem MergeInv.of_eq {s t : State}
    (h1 : t.aliases = s.aliases) (h2 : t.agentLinks = s.agentLinks)
    (h3 : t.agentDates = s.agentDates) (h4 : t.instIdentifiers = s.instIdentifiers)
    (h5 : t.instLinks = s.instLinks) (h6 : t.instDates = s.instDates)
    (h7 : t.agentRoles = s.agentRoles) (h8 : t.agents = s.agents)
    (h9 : t.nextAgentId = s.nextAgentId) (h10 : t.identifiers = s.identifiers)
    (hinv : MergeInv s) : MergeInv t := by
  obtain ⟨⟨n1, n2, n3, n4, n5, n6, n7⟩, ⟨b1, b2, b3, b4, b5⟩, cl⟩ := hinv
  exact ⟨⟨by rw [h1]; exact n1, by rw [h2]; exact n2, by rw [h3]; exact n3,
      by rw [h4]; exact n4, by rw [h5]; exact n5, by rw [h6]; exact n6,
      by rw [h7]; exact n7⟩,
    ⟨by rw [h8, h9]; exact b1, by rw [h1, h9]; exact b2, by rw [h2, h9]; exact b3,
      by rw [h3, h9]; exact b4, by rw [h7, h9]; exact b5⟩,
    by unfold IdentsClosed; rw [h4, h10]; exact cl⟩

theorem mapped_agents_bound {s : State} {aid : Nat} {sc : AgentScalars}
    (b1 : ∀ r ∈ s.agents, r.id < s.nextAgentId) :
    ∀ r ∈ s.agents.map (fun r => if r.id = aid then applyAgentScalars r sc else r),
      r.id < s.nextAgentId := by
  intro r hr
  obtain ⟨r0, hr0, rfl⟩ := List.mem_map.mp hr
  have hid : (if r0.id = aid then applyAgentScalars r0 sc else r0).id = r0.id := by
    split <;> rfl
  rw [hid]
  exact b1 r0 hr0

theorem agentUpdate_inv {s : State} {aid : Nat} {sc : AgentScalars}
    {al : Option (List String)} {lk : LinkVal} {dt : List DateRec} {s' : State}
    (hinv : MergeInv s) (haid : aid < s.nextAgentId)
    (hal : (al.getD []).Nodup)
    (h : agentUpdate s aid sc al lk dt = .ok s') : MergeInv s' := by
  obtain ⟨⟨n1, n2, n3, n4, n5, n6, n7⟩, ⟨b1, b2, b3, b4, b5⟩, cl⟩ := hinv
  simp only [agentUpdate] at h
  split at h
  · cases h
    exact ⟨⟨n1, guardedFold_nodup aid lk.toList s.agentLinks n2,
        guardedFold_nodup aid dt s.agentDates n3, n4, n5, n6, n7⟩,
      ⟨mapped_agents_bound b1, b2,
        guardedFold_pred aid _ (fun x => haid) lk.toList s.agentLinks b3,
        guardedFold_pred aid _ (fun x => haid) dt s.agentDates b4, b5⟩, cl⟩
  · next as_ =>
    split at h
    · next e heq =>
      rw [aliasRecs_eq _ aid n1 as_] at heq
      simp at heq
    · next recs heq =>
      rw [aliasRecs_eq _ aid n1 as_] at heq
      have hrecs := (MRes.ok.inj heq).symm
      subst hrecs
      cases h
      have hnews := aliasNews_nodup s.aliases aid as_ hal
      have hmemn := aliasNews_mem s.aliases aid as_
      refine ⟨⟨?_, guardedFold_nodup aid lk.toList s.agentLinks n2,
          guardedFold_nodup aid dt s.agentDates n3, n4, n5, n6, n7⟩,
        ⟨mapped_agents_bound b1, ?_,
          guardedFold_pred aid _ (fun x => haid) lk.toList s.agentLinks b3,
          guardedFold_pred aid _ (fun x => haid) dt s.agentDates b4, b5⟩, cl⟩
      · refine List.Nodup.append n1 hnews ?_
        intro pr hpr hprn
        exact (hmemn pr hprn).2.1 hpr
      · intro pr hpr
        rcases List.mem_append.mp hpr with hpr | hpr
        · exact b2 pr hpr
        · rw [(hmemn pr hpr).1]
          exact haid

theorem agentInsert_inv (s : State) (sc : AgentScalars)
    (al : Option (List String)) (lk : LinkVal) (dt : List DateRec)
    (hinv : MergeInv s) (hal : (al.getD []).Nodup) (hlk : lk.toList.Nodup)
    (hdt : dt.Nodup) : MergeInv (agentInsert s sc al lk dt).1 := by
  obtain ⟨⟨n1, n2, n3, n4, n5, n6, n7⟩, ⟨b1, b2, b3, b4, b5⟩, cl⟩ := hinv
  have hdisj : ∀ (xs : List (Nat × String)),
      (∀ pr ∈ xs, pr.1 < s.nextAgentId) →
      ∀ (ys : List String), xs.Disjoint (ys.map (fun a => (s.nextAgentId, a))) := by
    intro xs hb ys pr hpr hprn
    obtain ⟨x, hx, hxe⟩ := List.mem_map.mp hprn
    have h1 := hb pr hpr
    rw [← hxe] at h1
    exact absurd h1 (lt_irrefl _)
  have hdisjd : ∀ (xs : List (Nat × DateRec)),
      (∀ pr ∈ xs, pr.1 < s.nextAgentId) →
      ∀ (ys : List DateRec), xs.Disjoint (ys.map (fun d => (s.nextAgentId, d))) := by
    intro xs hb ys pr hpr hprn
    obtain ⟨x, hx, hxe⟩ := List.mem_map.mp hprn
    have h1 := hb pr hpr
    rw [← hxe] at h1
    exact absurd h1 (lt_irrefl _)
  have hbnd : ∀ {β : Type} (ys : List β) (pr : Nat × β),
      pr ∈ ys.map (fun a => (s.nextAgentId, a)) → pr.1 < s.nextAgentId + 1 := by
    intro β ys pr hpr
    obtain ⟨x, hx, hxe⟩ := List.mem_map.mp hpr
    rw [← hxe]
    exact Nat.lt_succ_self _
  cases al with
  | none =>
    refine ⟨⟨n1, List.Nodup.append n2 (hlk.map (pair_mk_injective _)) (hdisj _ b3 _),
        List.Nodup.append n3 (hdt.map (pair_mk_injective _)) (hdisjd _ b4 _), n4, n5, n6, n7⟩,
      ⟨?_, ?_, ?_, ?_, ?_⟩, cl⟩
    · intro r hr
      rcases List.mem_append.mp hr with hr | hr
      · exact Nat.lt_succ_of_lt (b1 r hr)
      · rw [List.mem_singleton.mp hr]
        exact Nat.lt_succ_self _
    · exact fun pr hpr => Nat.lt_succ_of_lt (b2 pr hpr)
    · intro pr hpr
      rcases List.mem_append.mp hpr with hpr | hpr
      · exact Nat.lt_succ_of_lt (b3 pr hpr)
      · exact hbnd _ pr hpr
    · intro pr hpr
      rcases List.mem_append.mp hpr with hpr | hpr
      · exact Nat.lt_succ_of_lt (b4 pr hpr)
      · exact hbnd _ pr hpr
    · exact fun tr htr => Nat.lt_succ_of_lt (b5 tr htr)
  | some as_ =>
    refine ⟨⟨List.Nodup.append n1 (hal.map (pair_mk_injective _)) (hdisj _ b2 _),
        List.Nodup.append n2 (hlk.map (pair_mk_injective _)) (hdisj _ b3 _),
        List.Nodup.append n3 (hdt.map (pair_mk_injective _)) (hdisjd _ b4 _), n4, n5, n6, n7⟩,
      ⟨?_, ?_, ?_, ?_, ?_⟩, cl⟩
    · intro r hr
      rcases List.mem_append.mp hr with hr | hr
      · exact Nat.lt_succ_of_lt (b1 r hr)
      · rw [List.mem_singleton.mp hr]
        exact Nat.lt_succ_self _
    · intro pr hpr
      rcases List.mem_append.mp hpr with hpr | hpr
      · exact Nat.lt_succ_of_lt (b2 pr hpr)
      · exact hbnd _ pr hpr
    · intro pr hpr
      rcases List.mem_append.mp hpr with hpr | hpr
      · exact Nat.lt_succ_of_lt (b3 pr hpr)
      · exact hbnd _ pr hpr
    · intro pr hpr
      rcases List.mem_append.mp hpr with hpr | hpr
      · exact Nat.lt_succ_of_lt (b4 pr hpr)
      · exact hbnd _ pr hpr
    · exact fun tr htr => Nat.lt_succ_of_lt (b5 tr htr)

theorem agentUpdateOrInsert_inv {sim : String → String → ℚ} {s : State}
    {p : AgentPayload} {s' : State} {aid : Nat} {ropt : Option (List String)}
    (hinv : MergeInv s) (hwf : AgentChildrenWf p)
    (h : agentUpdateOrInsert sim s p = .ok (s', aid, ropt)) : MergeInv s' := by
  simp only [agentUpdateOrInsert] at h
  split at h
  · simp at h
  · split at h
    · simp at h
    · next aid' heq1 =>
      split at h
      · simp at h
      · next heq2 =>
        cases h
        obtain ⟨r, hr, hrid⟩ := lookupAgent_some_mem heq1
        exact agentUpdate_inv hinv (hrid ▸ hinv.2.1.1 r hr) hwf.1 heq2
    · cases h
      exact agentInsert_inv s _ p.aliases p.link _ hinv hwf.1 hwf.2.1 hwf.2.2

theorem addAgents_inv {sim : String → String → ℚ} {iid : Nat} :
    ∀ {ps : List AgentPayload} {s s' : State}, MergeInv s →
    (∀ a ∈ ps, AgentChildrenWf a) →
    addAgents sim s iid ps = .ok s' → MergeInv s' := by
  intro ps
  induction ps with
  | nil =>
    intro s s' hinv _ h
    cases h
    exact hinv
  | cons p rest ih =>
    intro s s' hinv hwf h
    simp only [addAgents] at h
    split at h
    · exact ih hinv (fun a ha => hwf a (List.mem_cons_of_mem p ha)) h
    · simp at h
    · next s2 aid2 ropt heq =>
      have hinv2 := agentUpdateOrInsert_inv hinv (hwf p (List.mem_cons_self p rest)) heq
      have haid2 : aid2 < s2.nextAgentId :=
        agentUpdateOrInsert_aid_lt hinv.2.1.1 heq
      obtain ⟨⟨n1, n2, n3, n4, n5, n6, n7⟩, ⟨b1, b2, b3, b4, b5⟩, cl⟩ := hinv2
      refine ih ?_ (fun a ha => hwf a (List.mem_cons_of_mem p ha)) h
      exact ⟨⟨n1, n2, n3, n4, n5, n6,
          rolesAcc_nodup aid2 iid _ s2.agentRoles n7⟩,
        ⟨b1, b2, b3, b4,
          rolesAcc_pred aid2 iid _ (fun role => haid2) _ s2.agentRoles b5⟩, cl⟩

theorem instHead_inv (s : State) (iid : Nat) (p : InstancePayload)
    (hinv : MergeInv s) : MergeInv (instHead s iid p) := by
  rcases hw : (s.instances.find? (fun r => r.id == iid)).bind (fun r => r.work_id)
    with _ | wid <;>
    exact MergeInv.of_eq (by simp [instHead, hw]) (by simp [instHead, hw])
      (by simp [instHead, hw]) (by simp [instHead, hw]) (by simp [instHead, hw])
      (by simp [instHead, hw]) (by simp [instHead, hw]) (by simp [instHead, hw])
      (by simp [instHead, hw]) (by simp [instHead, hw]) hinv

theorem instTail_inv (s : State) (iid : Nat) (p : InstancePayload)
    (hinv : MergeInv s) : MergeInv (instTail s iid p) := by
  obtain ⟨⟨n1, n2, n3, n4, n5, n6, n7⟩, ⟨b1, b2, b3, b4, b5⟩, cl⟩ := hinv
  obtain ⟨e1, e2, e3, e4, e5, e6, e7⟩ := instTail_agentSide s iid p
  obtain ⟨r1, r2, r3, r4⟩ := instTail_rels s iid p
  have hid := identAcc_inv iid p.identifiers s.identifiers s.instIdentifiers n4 cl
  refine ⟨⟨?_, ?_, ?_, ?_, ?_, ?_, ?_⟩, ⟨?_, ?_, ?_, ?_, ?_⟩, ?_⟩
  · rw [e2]; exact n1
  · rw [e3]; exact n2
  · rw [e4]; exact n3
  · rw [r2]; exact hid.1
  · rw [r4]; exact guardedFold_nodup iid p.links s.instLinks n5
  · rw [r3]; exact guardedFold_nodup iid p.dates s.instDates n6
  · rw [e5]; exact n7
  · rw [e1, e6]; exact b1
  · rw [e2, e6]; exact b2
  · rw [e3, e6]; exact b3
  · rw [e4, e6]; exact b4
  · rw [e5, e6]; exact b5
  · unfold IdentsClosed; rw [r2, r1]; exact hid.2

/-- Claim C6 as amended: a successful Instance.update preserves the
no-duplicate-rows invariant over aliases, agent links, agent dates, instance
identifiers, instance links, instance dates and AgentRole join rows —
provided each incoming agent sub-payload's alias, link and cleaned date
collections are themselves duplicate-free.  Every relationship append is
guarded by an existence check, except that Agent.insert appends the child
collections of a freshly inserted agent wholesale, which is why the proviso
is needed.  Re-running an identical merge on an already-merged instance is
the special case where the stored state already satisfies the invariant. -/
theorem claim6NoDuplicateRows (sim : String → String → ℚ) (s : State)
    (iid : Nat) (p : InstancePayload) (s' : State)
    (hinv : MergeInv s) (hwf : ∀ a ∈ p.agents, AgentChildrenWf a)
    (hok : instanceUpdate sim s iid p = .ok s') : MergeInv s' := by
  simp only [instanceUpdate] at hok
  split at hok
  · simp at hok
  · next s3 heq =>
    cases hok
    exact instTail_inv _ _ _ (addAgents_inv (instHead_inv s iid p hinv) hwf heq)

/-- Counterexample to claim C6 as stated: on an already-merged instance whose
payload carries a fuzzy-ambiguous agent name with an internally duplicated
alias list, re-running the identical Instance.update inserts a fresh agent
and appends its alias list without any duplicate check, creating duplicate
alias rows. -/
theorem claim6Counterexample :
    isOk (instanceUpdate simEq cex6State 0 cex6Payload) = true ∧
    isOk (instanceUpdate simEq (okState (instanceUpdate simEq cex6State 0 cex6Payload))
      0 cex6Payload) = true ∧
    (okState (instanceUpdate simEq (okState (instanceUpdate simEq cex6State 0 cex6Payload))
      0 cex6Payload)).aliases = [(2, "X"), (2, "X"), (3, "X"), (3, "X")] ∧
    ¬ (okState (instanceUpdate simEq (okState (instanceUpdate simEq cex6State 0 cex6Payload))
      0 cex6Payload)).aliases.Nodup := by
  refine ⟨by decide, by decide, by decide, ?_⟩
  intro h
  rw [show (okState (instanceUpdate simEq (okState (instanceUpdate simEq cex6State 0
    cex6Payload)) 0 cex6Payload)).aliases = [(2, "X"), (2, "X"), (3, "X"), (3, "X")]
    from by decide] at h
  simp at h

/-- Witness for claim C6 at a concrete merge. -/
theorem claim6Witness :
    MergeInv (okState (instanceUpdate simEq wit6State 0 wit6Payload)) := by
  have hok : instanceUpdate simEq wit6State 0 wit6Payload =
      .ok (okState (instanceUpdate simEq wit6State 0 wit6Payload)) := by decide
  exact claim6NoDuplicateRows simEq wit6State 0 wit6Payload _ (by decide) (by decide) hok

end SfrDbUpdater
